import Mathlib

/-!
Verification of the archive engine of the `discord-to-obsidian` repository.

The development shallowly embeds the code of
`src/discord_to_obsidian/storage.py` and `src/discord_to_obsidian/config.py`:
pure helpers become Lean functions, filesystem state becomes an explicit
record of directories and files that every effectful operation threads,
and fallible operations return `Option`/`Except`.  Python strings are
modelled by Lean `String`/`List Char`; Python `int` by `Int`/`Nat`.
-/

namespace D2O

/-! ## Character classes and the sanitizer (`StorageManager._safe`) -/

/-- The character class `[A-Za-z0-9_.-]` of `SANITIZE_PATTERN`
(`storage.py` line 27): a character that the sanitizer keeps. -/
def isAllowedChar (c : Char) : Bool :=
  ('A' ≤ c && c ≤ 'Z') || ('a' ≤ c && c ≤ 'z') || ('0' ≤ c && c ≤ '9') ||
    c == '_' || c == '.' || c == '-'

/-- Whitespace as stripped by Python's `str.strip()` (restricted to the
ASCII whitespace characters; none of them is in `[A-Za-z0-9_.-]`). -/
def isSpaceChar (c : Char) : Bool := c.isWhitespace

/-- Drop the longest suffix of `l` all of whose characters satisfy `p`. -/
def dropTrailing (p : Char → Bool) (l : List Char) : List Char :=
  (l.reverse.dropWhile p).reverse

/-- Python's `str.strip`: drop the matching characters from both ends. -/
def stripBoth (p : Char → Bool) (l : List Char) : List Char :=
  dropTrailing p (l.dropWhile p)

/-- Worker for the regex substitution: the flag records whether the scan
is inside a run of disallowed characters whose `'-'` was already
emitted. -/
def subRunsAux : Bool → List Char → List Char
  | _, [] => []
  | inRun, c :: rest =>
    if isAllowedChar c then c :: subRunsAux false rest
    else if inRun then subRunsAux true rest
    else '-' :: subRunsAux true rest

/-- `SANITIZE_PATTERN.sub("-", ·)`: replace every maximal run of
characters outside `[A-Za-z0-9_.-]` with one `'-'`. -/
def subRuns (l : List Char) : List Char := subRunsAux false l

/-- `StorageManager._safe` (`storage.py` lines 38-40) on character lists:
strip whitespace, collapse disallowed runs to `'-'`, trim `'-'`,
fall back to `"untitled"`. -/
def safeList (l : List Char) : List Char :=
  if (stripBoth (fun c => c == '-') (subRuns (stripBoth isSpaceChar l))).isEmpty
  then "untitled".toList
  else stripBoth (fun c => c == '-') (subRuns (stripBoth isSpaceChar l))

/-- `StorageManager._safe` on strings ("sanitize" in the specification). -/
def safe (s : String) : String := ⟨safeList s.toList⟩

/-! ### Sanitizer lemmas -/

/-! ## Decimal rendering (Python `str` of integers, `f"{n:02d}"`, `f"{n:04d}"`) -/

/-- Decimal digits of a natural number, most significant first; the fuel
argument (always called with `n + 1`, which bounds the digit count) keeps
the recursion structural. -/
def natDigitsAux : Nat → Nat → List Char → List Char
  | 0, _, acc => acc
  | fuel + 1, n, acc =>
    let d := Char.ofNat (48 + n % 10)
    if n < 10 then d :: acc else natDigitsAux fuel (n / 10) (d :: acc)

/-- Python `str` of a non-negative integer. -/
def natRepr (n : Nat) : String := ⟨natDigitsAux (n + 1) n []⟩

/-- Python `str` of an integer. -/
def intRepr (i : Int) : String :=
  if i < 0 then "-" ++ natRepr (-i).toNat else natRepr i.toNat

/-- Python `f"{n:02d}"`. -/
def pad2 (n : Nat) : String := if n < 10 then "0" ++ natRepr n else natRepr n

/-- Python `f"{n:04d}"`. -/
def pad4 (n : Nat) : String :=
  if n < 10 then "000" ++ natRepr n
  else if n < 100 then "00" ++ natRepr n
  else if n < 1000 then "0" ++ natRepr n
  else natRepr n

/-! ## Calendar model (Python `datetime`/`timedelta`) -/

/-- A timezone-naive reading of a `datetime`: the wall-clock fields the
storage code consumes (seconds and below are never used by it). -/
structure DateTime where
  year : Nat
  month : Nat
  day : Nat
  hour : Nat
  minute : Nat
deriving DecidableEq, Repr

/-- Gregorian leap-year rule. -/
def isLeapYear (y : Nat) : Bool := (y % 4 == 0 && y % 100 != 0) || y % 400 == 0

/-- Days in a month of the Gregorian calendar. -/
def daysInMonth (y m : Nat) : Nat :=
  match m with
  | 2 => if isLeapYear y then 29 else 28
  | 4 => 30
  | 6 => 30
  | 9 => 30
  | 11 => 30
  | _ => 31

/-- Days in the months strictly before month `m` of year `y`. -/
def daysBeforeMonth (y m : Nat) : Nat :=
  ((List.range (m - 1)).map (fun i => daysInMonth y (i + 1))).sum

/-- `timetuple().tm_yday`: the 1-based day of the year. -/
def dayOfYear (d : DateTime) : Nat := daysBeforeMonth d.year d.month + d.day

/-- The previous calendar day (time of day unchanged). -/
def predDay (d : DateTime) : DateTime :=
  if 1 < d.day then { d with day := d.day - 1 }
  else if 1 < d.month then
    { d with month := d.month - 1, day := daysInMonth d.year (d.month - 1) }
  else { d with year := d.year - 1, month := 12, day := 31 }

/-- The next calendar day (time of day unchanged). -/
def succDay (d : DateTime) : DateTime :=
  if d.day < daysInMonth d.year d.month then { d with day := d.day + 1 }
  else if d.month < 12 then { d with month := d.month + 1, day := 1 }
  else { d with year := d.year + 1, month := 1, day := 1 }

/-- `d - timedelta(days := n)`. -/
def subDays (d : DateTime) (n : Nat) : DateTime := predDay^[n] d

/-- `d + timedelta(days := n)`. -/
def addDays (d : DateTime) (n : Nat) : DateTime := succDay^[n] d

/-- Fixed-offset model of the external IANA timezone database
(`zoneinfo.ZoneInfo`): the finite table of zones the development uses,
each mapped to its UTC offset in minutes.  A name outside the table is a
zone for which `ZoneInfo` raises `ZoneInfoNotFoundError`. -/
def tzOffsetMinutes? (name : String) : Option Int :=
  if name = "UTC" then some 0
  else if name = "Etc/GMT-1" then some 60
  else if name = "Etc/GMT-2" then some 120
  else if name = "Etc/GMT+1" then some (-60)
  else none

/-- `timestamp.astimezone(tz)` for a fixed-offset zone: shift the wall
clock by the offset, carrying into the date. -/
def toLocal (ts : DateTime) (offsetMinutes : Int) : DateTime :=
  let total : Int := ((ts.hour * 60 + ts.minute : Nat) : Int) + offsetMinutes
  let dayShift : Int := Int.fdiv total 1440
  let rem : Nat := (Int.fmod total 1440).toNat
  let date := if 0 ≤ dayShift then addDays ts dayShift.toNat
              else subDays ts (-dayShift).toNat
  { date with hour := rem / 60, minute := rem % 60 }

/-! ## Configuration record (`config.py`, dataclass `GuildConfig`) -/

def DEFAULT_FILENAME_TEMPLATE : String := "{channel}/{year}-{month}-{day}"

/-- The persisted configuration for a guild (`config.py` lines 13-26). -/
structure GuildConfig where
  guild_id : Int
  vault_path : String := "vaults"
  export_mode : String := "monthly"
  timezone : String := "UTC"
  include_channels : List Int := []
  exclude_channels : List Int := []
  admin_role_id : Option Int := none
  filename_template : String := DEFAULT_FILENAME_TEMPLATE
  custom_period_days : Int := 7
deriving DecidableEq, Repr

/-! ## Path resolution (`StorageManager.determine_file_path`) -/

/-- Scanner state for Python `str.format`: either copying literal text or
collecting a placeholder name. -/
inductive FmtState where
  | lit : FmtState
  | name : List Char → FmtState

/-- Placeholder lookup for `filename_template.format(channel=..., year=...,
month=..., day=...)`; an unknown name is Python's `KeyError`. -/
def placeholderValue (nm : List Char) (channel year month day : String) :
    Option String :=
  if nm = "channel".toList then some channel
  else if nm = "year".toList then some year
  else if nm = "month".toList then some month
  else if nm = "day".toList then some day
  else none

/-- Worker for Python `str.format` over the four supported placeholders;
`none` models the `KeyError`/`ValueError` the real call raises.  The
model covers the plain placeholder forms (`{name}`, `{{`/`}}` escapes)
that the repository's templates use; placeholders carrying a format spec
or conversion (e.g. `{channel:>8}`, `{x!r}`), which Python's `str.format`
would render, are outside the model and also map to `none`. -/
def renderFormatAux (channel year month day : String) :
    FmtState → List Char → Option (List Char)
  | .lit, [] => some []
  | .lit, '{' :: '{' :: rest =>
      (renderFormatAux channel year month day .lit rest).map ('{' :: ·)
  | .lit, '}' :: '}' :: rest =>
      (renderFormatAux channel year month day .lit rest).map ('}' :: ·)
  | .lit, '{' :: rest => renderFormatAux channel year month day (.name []) rest
  | .lit, '}' :: _ => none
  | .lit, c :: rest =>
      (renderFormatAux channel year month day .lit rest).map (c :: ·)
  | .name _, [] => none
  | .name acc, '}' :: rest =>
      match placeholderValue acc channel year month day with
      | none => none
      | some v =>
          (renderFormatAux channel year month day .lit rest).map (v.toList ++ ·)
  | .name acc, c :: rest =>
      renderFormatAux channel year month day (.name (acc ++ [c])) rest

/-- Python `template.format(channel=..., year=..., month=..., day=...)`. -/
def renderFormat (template channel year month day : String) : Option String :=
  (renderFormatAux channel year month day .lit template.toList).map (⟨·⟩)

/-- Split a character list at `'/'`, the segment collected so far in
`acc`. -/
def splitSegsAux : List Char → List Char → List String
  | [], acc => [⟨acc⟩]
  | c :: rest, acc =>
    if c = '/' then ⟨acc⟩ :: splitSegsAux rest [] else splitSegsAux rest (acc ++ [c])

/-- Split a path string into its segments, as `pathlib.Path` does
(empty segments collapse). -/
def splitPath (s : String) : List String :=
  (splitSegsAux s.toList []).filter (fun x => !(x == ""))

/-- `String.startsWith`, by lists (kernel-evaluable). -/
def strStartsWith (s pre : String) : Bool := pre.toList.isPrefixOf s.toList

/-- `String.endsWith`, by lists (kernel-evaluable). -/
def strEndsWith (s suf : String) : Bool := suf.toList.isSuffixOf s.toList

/-- Python `int(str)` on decimal digit strings (`none` is the
`ValueError`). -/
def digitsToNat? : List Char → Option Nat
  | [] => none
  | l => go l 0
where
  go : List Char → Nat → Option Nat
    | [], acc => some acc
    | c :: rest, acc =>
      if c.isDigit then go rest (acc * 10 + (c.toNat - 48)) else none

def strToInt? (s : String) : Option Int :=
  match s.toList with
  | '-' :: rest => (digitsToNat? rest).map (fun n => -(n : Int))
  | l => (digitsToNat? l).map (fun n => (n : Int))

/-- `pathlib.Path.suffix` is non-empty: the *last* `'.'` of the final
component is neither its first nor its last character (`i = rfind('.')`
with `0 < i < len - 1`).  Scanning the reversed name: there is a dot,
the characters after the last dot are non-empty (the dot is not final),
and the characters before it are non-empty (the dot is not first). -/
def pathHasSuffixExt (name : String) : Bool :=
  let r := name.toList.reverse
  r.contains '.' && !(r.takeWhile (fun c => !(c == '.'))).isEmpty &&
    !((r.dropWhile (fun c => !(c == '.'))).tail).isEmpty

/-- The guild's vault base directory `root / str(guild_id) / vault_path`
(`StorageManager._base_dir`), as path segments. -/
def basePathSegs (root : List String) (cfg : GuildConfig) : List String :=
  root ++ [intRepr cfg.guild_id] ++ splitPath cfg.vault_path

/-- The pure part of `StorageManager.determine_file_path` (`storage.py`
lines 47-87): the path of the target file relative to the vault base
directory.  `none` models the exceptions the Python code can raise
(unknown timezone, failing template rendering). -/
def determineRelPath (cfg : GuildConfig) (channel_name : String)
    (timestamp : DateTime) : Option (List String) :=
  match tzOffsetMinutes? cfg.timezone with
  | none => none
  | some off =>
    let local_time := toLocal timestamp off
    let channel_slug := safe channel_name
    let year := pad4 local_time.year
    let month := pad2 local_time.month
    let day := pad2 local_time.day
    if cfg.export_mode = "single" then some [channel_slug ++ ".md"]
    else if cfg.export_mode = "daily" then
      some [channel_slug, year ++ "-" ++ month ++ "-" ++ day ++ ".md"]
    else if cfg.export_mode = "monthly" then
      some [channel_slug, year ++ "-" ++ month ++ ".md"]
    else if cfg.export_mode = "custom" then
      let days := (max 1 cfg.custom_period_days).toNat
      let bucket_start := subDays local_time (dayOfYear local_time % days)
      some [channel_slug,
        pad4 bucket_start.year ++ "-" ++ pad2 bucket_start.month ++ "-" ++
          pad2 bucket_start.day ++ "_d" ++ natRepr days ++ ".md"]
    else
      match renderFormat cfg.filename_template channel_slug year month day with
      | none => none
      | some rendered =>
        let segs := splitPath rendered
        match segs.getLast? with
        | none => none
        | some lastSeg =>
          if pathHasSuffixExt lastSeg then some segs
          else some (segs.dropLast ++ [lastSeg ++ ".md"])

/-! ## Filesystem state

The storage manager's effects are modelled on an explicit state: the set
of existing directories and a table of files (path segments ↦ text
content). -/

structure FS where
  dirs : List (List String) := []
  files : List (List String × String) := []
deriving DecidableEq, Repr

/-- Association-list update used for `write_text`/append: replace the
first entry for the path or create one. -/
def setEntry : List (List String × String) → List String → String →
    List (List String × String)
  | [], p, c => [(p, c)]
  | e :: rest, p, c => if e.1 == p then (p, c) :: rest else e :: setEntry rest p c

def FS.getFile (fs : FS) (p : List String) : Option String :=
  (fs.files.find? (fun e => e.1 == p)).map (fun e => e.2)

def FS.setFile (fs : FS) (p : List String) (c : String) : FS :=
  { fs with files := setEntry fs.files p c }

/-- `Path.unlink(missing_ok = True)`: drop the file if present. -/
def FS.removeFile (fs : FS) (p : List String) : FS :=
  { fs with files := fs.files.filter (fun e => !(e.1 == p)) }

def FS.addDir (fs : FS) (d : List String) : FS :=
  if d ∈ fs.dirs then fs else { fs with dirs := fs.dirs ++ [d] }

/-- All non-empty prefixes of a segment path, shortest first. -/
def prefixesOf (p : List String) : List (List String) :=
  (List.range p.length).map (fun k => p.take (k + 1))

/-- `Path.mkdir(parents = True, exist_ok = True)`. -/
def FS.mkdirParents (fs : FS) (p : List String) : FS :=
  (prefixesOf p).foldl FS.addDir fs

/-! ## `StorageManager.determine_file_path` with its directory effects -/

/-- `StorageManager.determine_file_path` (`storage.py` lines 47-87):
resolves the target path and creates the vault base directory
(`_base_dir`) and the file's parent directory.  A `none` result models a
raised exception; the model then discards the directory creations that
may precede the raise, which no claim depends on. -/
def determine_file_path (root : List String) (fs : FS) (cfg : GuildConfig)
    (channel_name : String) (timestamp : DateTime) :
    Option (List String × FS) :=
  match determineRelPath cfg channel_name timestamp with
  | none => none
  | some rel =>
    some (basePathSegs root cfg ++ rel,
      FS.mkdirParents (FS.mkdirParents fs (basePathSegs root cfg))
        ((basePathSegs root cfg ++ rel).dropLast))

/-! ## Header and entry writing (`_ensure_header`, `append_message`) -/

/-- The `MARKDOWN_HEADER` template of `storage.py` (lines 17-25),
instantiated. -/
def markdownHeader (channel : String) (server : Int)
    (period export_mode generated : String) : String :=
  "---\nchannel: " ++ channel ++ "\nserver: " ++ intRepr server ++
    "\nperiod: " ++ period ++ "\nexport_mode: " ++ export_mode ++
    "\ngenerated_on: " ++ generated ++ "\n---\n\n"

/-- The `period` label computed in `_ensure_header` (`storage.py` lines
93-99); `daily`/`monthly` format the raw event timestamp. -/
def periodLabel (cfg : GuildConfig) (ts : DateTime) : String :=
  if cfg.export_mode = "single" then "all"
  else if cfg.export_mode = "daily" then
    pad4 ts.year ++ "-" ++ pad2 ts.month ++ "-" ++ pad2 ts.day
  else if cfg.export_mode = "monthly" then
    pad4 ts.year ++ "-" ++ pad2 ts.month
  else "varies"

/-- `StorageManager._ensure_header` (`storage.py` lines 90-107).  The
`now` argument is the `datetime.now(timezone.utc).isoformat()` string
captured at call time. -/
def ensure_header (fs : FS) (path : List String) (cfg : GuildConfig)
    (channel_name : String) (timestamp : DateTime) (now : String) : FS :=
  let header := markdownHeader channel_name cfg.guild_id
    (periodLabel cfg timestamp) cfg.export_mode now
  match fs.getFile path with
  | some c => if 0 < c.length then fs else fs.setFile path header
  | none => fs.setFile path header

/-- `timestamp.strftime("%Y-%m-%d %H:%M")` — note: applied to the raw
`timestamp` argument, with no timezone conversion. -/
def fmtStamp (ts : DateTime) : String :=
  pad4 ts.year ++ "-" ++ pad2 ts.month ++ "-" ++ pad2 ts.day ++ " " ++
    pad2 ts.hour ++ ":" ++ pad2 ts.minute

/-- Python `sep.join(items)`. -/
def joinSep (sep : String) : List String → String
  | [] => ""
  | [s] => s
  | s :: rest => s ++ sep ++ joinSep sep rest

/-- Concatenation of a list of strings. -/
def concatStrings : List String → String
  | [] => ""
  | s :: rest => s ++ concatStrings rest

/-- The entry string built by `append_message` (`storage.py` lines
124-136). -/
def entryText (message_id : Int) (author content : String)
    (timestamp : DateTime) (attachments : List String) (event : String) :
    String :=
  let stamp := fmtStamp timestamp
  let attachments_block :=
    joinSep "\n" (attachments.map (fun url => "- Attachment: " ++ url))
  let entry := "### " ++ stamp ++ " " ++ author ++ "\n" ++
    (if content = "" then "[no content]" else content) ++ "\n" ++
    "- Message ID: " ++ intRepr message_id ++ "\n" ++
    "- Event: " ++ event ++ "\n"
  let entry2 := if attachments.isEmpty then entry
                else entry ++ attachments_block ++ "\n"
  entry2 ++ "\n"

/-- The arguments of one `append_message` call, together with the
current-time string its header would carry. -/
structure MessageCall where
  channel_name : String
  message_id : Int
  author : String
  content : String
  timestamp : DateTime
  attachments : List String := []
  event : String := "message"
  now : String := ""
deriving DecidableEq, Repr

/-- `StorageManager.append_message` (`storage.py` lines 109-139):
resolve, ensure the header, append one entry. -/
def append_message (root : List String) (fs : FS) (cfg : GuildConfig)
    (call : MessageCall) : Option (List String × FS) :=
  match determine_file_path root fs cfg call.channel_name call.timestamp with
  | none => none
  | some (file_path, fs1) =>
    let fs2 := ensure_header fs1 file_path cfg call.channel_name
      call.timestamp call.now
    let entry := entryText call.message_id call.author call.content
      call.timestamp call.attachments call.event
    let old := (fs2.getFile file_path).getD ""
    some (file_path, fs2.setFile file_path (old ++ entry))

/-- A sequence of `append_message` calls, each threading the state. -/
def runAppends (root : List String) (fs : FS) (cfg : GuildConfig) :
    List MessageCall → Option FS
  | [] => some fs
  | call :: rest =>
    match append_message root fs cfg call with
    | none => none
    | some (_, fs') => runAppends root fs' cfg rest

/-! ## Listing, search and purge -/

/-- Membership in `list_files` output: a file strictly below the vault
base whose name matches `*.md` (`base_dir.rglob("*.md")`). -/
def isListedFile (root : List String) (cfg : GuildConfig)
    (p : List String) : Bool :=
  (basePathSegs root cfg).isPrefixOf p && !(p == basePathSegs root cfg) &&
    strEndsWith (p.getLastD "") ".md"

/-- `StorageManager.list_files` (`storage.py` lines 142-144), in the
file table's traversal order. -/
def list_files (root : List String) (fs : FS) (cfg : GuildConfig) :
    List (List String) :=
  (fs.files.map Prod.fst).filter (isListedFile root cfg)

/-- The deletion loop of `StorageManager.purge` (`storage.py` lines
165-170), over the list of paths computed before the loop: skip a path
when a channel filter is given (and non-empty — Python truthiness) and
the sanitized channel name is not among the path's parts; otherwise
unlink with `missing_ok = True` and count it as removed. -/
def purgeLoop (channel_name : Option String) :
    List (List String) → FS → Nat → Nat × FS
  | [], fs, removed => (removed, fs)
  | p :: paths, fs, removed =>
    let skip := match channel_name with
      | some ch => !(ch == "") && !(p.contains (safe ch))
      | none => false
    if skip then purgeLoop channel_name paths fs removed
    else purgeLoop channel_name paths (fs.removeFile p) (removed + 1)

/-- `StorageManager.purge` (`storage.py` lines 163-171). -/
def purge (root : List String) (fs : FS) (cfg : GuildConfig)
    (channel_name : Option String) : Nat × FS :=
  purgeLoop channel_name (list_files root fs cfg) fs 0

/-! ## Path normalization (for the traversal-safety claim)

`pathlib` keeps `".."` segments lexically; the operating system resolves
them when the path is opened.  `normalizeSegs` is that resolution for
symlink-free trees. -/

/-- One step of lexical path resolution. -/
def normStep (acc : List String) (s : String) : List String :=
  if s = "." then acc
  else if s = ".." then acc.dropLast
  else acc ++ [s]

def normalizeSegs (segs : List String) : List String :=
  segs.foldl normStep []

/-! ## Search over raw bytes (`StorageManager.search`)

File contents are read with `errors = "ignore"`, so the read model keeps
the undecodable bytes explicit: a file's raw content is a list in which
`some c` is a byte sequence decoding to the character `c` and `none` is
an undecodable byte. -/

structure RawFS where
  files : List (List String × List (Option Char)) := []
deriving DecidableEq, Repr

def RawFS.get (fs : RawFS) (p : List String) : List (Option Char) :=
  ((fs.files.find? (fun e => e.1 == p)).map (fun e => e.2)).getD []

/-- JSON values, as produced by Python's `json.loads`. -/
inductive Json where
  | null : Json
  | bool : Bool → Json
  | num : Int → Json
  | str : String → Json
  | arr : List Json → Json
  | obj : List (String × Json) → Json
deriving BEq, Repr

/-- The exceptions the loading pipeline can raise past the
`json.JSONDecodeError` handler. -/
inductive PyError where
  | attributeError : PyError
  | keyError : String → PyError
  | valueError : PyError
  | typeError : PyError
deriving DecidableEq, Repr

/-- Python `int(x)` on a JSON value. -/
def pyInt : Json → Except PyError Int
  | .num n => .ok n
  | .bool b => .ok (if b then 1 else 0)
  | .str s => match strToInt? s with
      | some n => .ok n
      | none => .error .valueError
  | _ => .error .typeError

/-- `dict.get` on a decoded JSON object. -/
def dictGet (fields : List (String × Json)) (k : String) : Option Json :=
  (fields.find? (fun e => e.1 == k)).map (fun e => e.2)

/-- A string field of the configuration record.  The persisted table only
ever holds strings here, so a non-string is modelled as a `TypeError`. -/
def asStr : Json → Except PyError String
  | .str s => .ok s
  | _ => .error .typeError

/-- The optional `admin_role_id` field. -/
def asOptInt : Json → Except PyError (Option Int)
  | .null => .ok none
  | .num n => .ok (some n)
  | _ => .error .typeError

/-- `list(...)` over a persisted channel-id list. -/
def asIntList : Json → Except PyError (List Int)
  | .arr xs => xs.mapM (fun j => match j with
      | .num n => Except.ok n
      | _ => Except.error .typeError)
  | _ => .error .typeError

/-- `GuildConfig.from_dict` (`config.py` lines 40-52). -/
def GuildConfig.from_dict (j : Json) : Except PyError GuildConfig :=
  match j with
  | .obj d => do
    let gidJ ← match dictGet d "guild_id" with
      | some v => Except.ok v
      | none => Except.error (.keyError "guild_id")
    let gid ← pyInt gidJ
    let vault ← asStr ((dictGet d "vault_path").getD (.str "vaults"))
    let mode ← asStr ((dictGet d "export_mode").getD (.str "monthly"))
    let tz ← asStr ((dictGet d "timezone").getD (.str "UTC"))
    let inc ← asIntList ((dictGet d "include_channels").getD (.arr []))
    let exc ← asIntList ((dictGet d "exclude_channels").getD (.arr []))
    let role ← asOptInt ((dictGet d "admin_role_id").getD .null)
    let tmpl ← asStr ((dictGet d "filename_template").getD
      (.str DEFAULT_FILENAME_TEMPLATE))
    let days ← pyInt ((dictGet d "custom_period_days").getD (.num 7))
    pure { guild_id := gid, vault_path := vault, export_mode := mode,
           timezone := tz, include_channels := inc, exclude_channels := exc,
           admin_role_id := role, filename_template := tmpl,
           custom_period_days := days }
  | _ => .error .typeError

/-- The configuration file's state, abstracted to the outcome of
`json.loads` on its text: absent, unparseable, or a parsed JSON value. -/
def ConfigFile : Type := Option (Except Unit Json)

/-- `ConfigManager._load` (`config.py` lines 64-73): a missing file and a
`json.JSONDecodeError` both give an empty table; any other shape of data
feeds `payload.items()` and `from_dict`, whose exceptions propagate. -/
def ConfigManager.load (file : ConfigFile) :
    Except PyError (List (Int × GuildConfig)) :=
  match file with
  | none => .ok []
  | some (.error _) => .ok []
  | some (.ok payload) =>
    match payload with
    | .obj items => items.mapM (fun e => do
        let gid ← match strToInt? e.1 with
          | some n => Except.ok n
          | none => Except.error PyError.valueError
        let cfg ← GuildConfig.from_dict e.2
        pure (gid, cfg))
    | _ => .error .attributeError

/-! ## Field updates (`ConfigManager.update`)

`update` guards each `setattr(config, key, value)` with
`hasattr(config, key)`.  `hasattr` is true for the nine dataclass fields
but also for class attributes that are not fields — the methods
`to_dict` and `from_dict` and the dunders — so those names are assigned
too, creating an instance attribute that shadows the method.  Shadowing
`to_dict` with a configuration value (a non-callable) makes the
`config.to_dict()` call inside `_save` raise `TypeError`; shadowing any
other class attribute does not disturb `_save`.  The instance model
therefore records the dataclass fields plus whether `to_dict` has been
shadowed by a non-callable. -/

/-- A `GuildConfig` dataclass *instance*: its fields together with the
attributes Python `setattr` may have added on top of the class.  Only
the `to_dict` shadow is observable (it breaks `_save`); shadows of other
non-field class attributes are omitted because nothing reads them. -/
structure PyInstance where
  cfg : GuildConfig
  to_dict_shadowed : Bool := false
deriving DecidableEq, Repr

/-- One keyword argument of `ConfigManager.update`: a recognized
`GuildConfig` field with its new value, the non-field class attribute
`to_dict` (assigned a non-callable configuration value), or a name that
is not an attribute of the record at all. -/
inductive FieldChange where
  | guildId : Int → FieldChange
  | vaultPath : String → FieldChange
  | exportMode : String → FieldChange
  | timezone : String → FieldChange
  | includeChannels : List Int → FieldChange
  | excludeChannels : List Int → FieldChange
  | adminRoleId : Option Int → FieldChange
  | filenameTemplate : String → FieldChange
  | customPeriodDays : Int → FieldChange
  | toDict : FieldChange
  | unknown : String → FieldChange
deriving DecidableEq, Repr

/-- `setattr(config, key, value)` guarded by `hasattr(config, key)`:
a field is assigned; the class attribute `to_dict` is also assigned
(`hasattr` is true for it), shadowing the method; a name that is not an
attribute is skipped. -/
def applyChange (c : PyInstance) : FieldChange → PyInstance
  | .guildId v => { c with cfg := { c.cfg with guild_id := v } }
  | .vaultPath v => { c with cfg := { c.cfg with vault_path := v } }
  | .exportMode v => { c with cfg := { c.cfg with export_mode := v } }
  | .timezone v => { c with cfg := { c.cfg with timezone := v } }
  | .includeChannels v => { c with cfg := { c.cfg with include_channels := v } }
  | .excludeChannels v => { c with cfg := { c.cfg with exclude_channels := v } }
  | .adminRoleId v => { c with cfg := { c.cfg with admin_role_id := v } }
  | .filenameTemplate v => { c with cfg := { c.cfg with filename_template := v } }
  | .customPeriodDays v => { c with cfg := { c.cfg with custom_period_days := v } }
  | .toDict => { c with to_dict_shadowed := true }
  | .unknown _ => c

/-- Whether the change names a recognized dataclass field. -/
def recognizedChange : FieldChange → Bool
  | .unknown _ => false
  | .toDict => false
  | _ => true

/-- The attribute name a change targets. -/
def changeName : FieldChange → String
  | .guildId _ => "guild_id"
  | .vaultPath _ => "vault_path"
  | .exportMode _ => "export_mode"
  | .timezone _ => "timezone"
  | .includeChannels _ => "include_channels"
  | .excludeChannels _ => "exclude_channels"
  | .adminRoleId _ => "admin_role_id"
  | .filenameTemplate _ => "filename_template"
  | .customPeriodDays _ => "custom_period_days"
  | .toDict => "to_dict"
  | .unknown nm => nm

/-- Read a field of the record by attribute name, reified as the change
that would write the current value back; `none` for unknown names. -/
def fieldVal (c : GuildConfig) (name : String) : Option FieldChange :=
  if name = "guild_id" then some (.guildId c.guild_id)
  else if name = "vault_path" then some (.vaultPath c.vault_path)
  else if name = "export_mode" then some (.exportMode c.export_mode)
  else if name = "timezone" then some (.timezone c.timezone)
  else if name = "include_channels" then
    some (.includeChannels c.include_channels)
  else if name = "exclude_channels" then
    some (.excludeChannels c.exclude_channels)
  else if name = "admin_role_id" then some (.adminRoleId c.admin_role_id)
  else if name = "filename_template" then
    some (.filenameTemplate c.filename_template)
  else if name = "custom_period_days" then
    some (.customPeriodDays c.custom_period_days)
  else none

/-- In-memory cache of instances plus the persisted table (the
deserialized view of what `_save` last successfully wrote). -/
structure ConfigState where
  cache : List (Int × PyInstance) := []
  disk : List (Int × GuildConfig) := []
deriving DecidableEq, Repr

/-- Association-list update for the cache, mirroring `setEntry`. -/
def cacheSet : List (Int × PyInstance) → Int → PyInstance →
    List (Int × PyInstance)
  | [], gid, c => [(gid, c)]
  | e :: rest, gid, c =>
    if e.1 == gid then (gid, c) :: rest else e :: cacheSet rest gid c

def cacheGet (cache : List (Int × PyInstance)) (gid : Int) :
    Option PyInstance :=
  (cache.find? (fun e => e.1 == gid)).map (fun e => e.2)

/-- The serialization step of `ConfigManager._save`: `json.dumps` calls
`config.to_dict()` on every cached instance; an instance whose `to_dict`
is shadowed by a non-callable raises `TypeError` there, before anything
is written. -/
def tableSerialize (cache : List (Int × PyInstance)) :
    Except PyError (List (Int × GuildConfig)) :=
  if cache.any (fun e => e.2.to_dict_shadowed) then .error .typeError
  else .ok (cache.map (fun e => (e.1, e.2.cfg)))

/-- `ConfigManager.get` (`config.py` lines 80-84).  The `Except` result
models the exception `_save` raises when serialization fails; the state
component is the cache/disk after the call either way (the disk is only
rewritten on success). -/
def ConfigManager.get (st : ConfigState) (gid : Int) :
    Except PyError PyInstance × ConfigState :=
  match cacheGet st.cache gid with
  | some c => (.ok c, st)
  | none =>
    match tableSerialize (cacheSet st.cache gid ⟨{ guild_id := gid }, false⟩) with
    | .ok d =>
        (.ok ⟨{ guild_id := gid }, false⟩,
         ⟨cacheSet st.cache gid ⟨{ guild_id := gid }, false⟩, d⟩)
    | .error e =>
        (.error e,
         ⟨cacheSet st.cache gid ⟨{ guild_id := gid }, false⟩, st.disk⟩)

/-- `ConfigManager.update` (`config.py` lines 86-92): get (creating on
first access), apply the `setattr` loop, store, `_save`.  A raise inside
`_save` propagates (the `.error` result); the mutated cache is retained
either way, the disk only on success. -/
def ConfigManager.update (st : ConfigState) (gid : Int)
    (changes : List FieldChange) : Except PyError PyInstance × ConfigState :=
  match ConfigManager.get st gid with
  | (.error e, st1) => (.error e, st1)
  | (.ok c0, st1) =>
    match tableSerialize (cacheSet st1.cache gid
        (changes.foldl applyChange c0)) with
    | .ok d =>
        (.ok (changes.foldl applyChange c0),
         ⟨cacheSet st1.cache gid (changes.foldl applyChange c0), d⟩)
    | .error e =>
        (.error e,
         ⟨cacheSet st1.cache gid (changes.foldl applyChange c0), st1.disk⟩)

/-! ## Concrete fixtures for witnesses and counterexamples -/

def cfgSingle : GuildConfig := { guild_id := 1, export_mode := "single" }

def cfgMonthly : GuildConfig := { guild_id := 1, export_mode := "monthly" }

def cfgCustom7 : GuildConfig := { guild_id := 1, export_mode := "custom" }

def cfgSingleTz : GuildConfig :=
  { guild_id := 1, export_mode := "single", timezone := "Etc/GMT-1" }

def tsJan10 : DateTime := ⟨2023, 1, 10, 12, 0⟩

def tsNoon : DateTime := ⟨2024, 1, 1, 12, 0⟩

def tsMar1 : DateTime := ⟨2024, 3, 1, 12, 0⟩

def callA : MessageCall :=
  { channel_name := "general", message_id := 1, author := "@alice",
    content := "hello", timestamp := tsMar1, now := "T1" }

/-- A filesystem with one archived file each for channels `general` and
`random` of guild 1. -/
def fsP : FS :=
  ⟨[], [(["1", "vaults", "general", "2024-03.md"], "x"),
        (["1", "vaults", "random", "2024-03.md"], "y")]⟩

def callB : MessageCall :=
  { channel_name := "general", message_id := 2, author := "@bob",
    content := "", timestamp := tsMar1,
    attachments := ["http://example.com/a.png"], event := "edited",
    now := "T2" }

/-- The custom-mode path formula as §4.2 of the specification words it:
`days = max(1, customPeriodDays)`, `offset = dayOfYear(localDate) mod
days`, `bucketStart = localDate - offset days`, path
`{sanitizedChannel}/{Y}-{M}-{D}_d{days}.md`.  Stated separately from the
embedding of the code so the two can be compared. -/
def specCustomRelPath (cfg : GuildConfig) (channel_name : String)
    (localDate : DateTime) : List String :=
  let days := (max 1 cfg.custom_period_days).toNat
  let offset := dayOfYear localDate % days
  let bucketStart := subDays localDate offset
  [safe channel_name,
    pad4 bucketStart.year ++ "-" ++ pad2 bucketStart.month ++ "-" ++
      pad2 bucketStart.day ++ "_d" ++ natRepr days ++ ".md"]

/-! # Theorems -/

theorem mem_subRunsAux_allowed {c : Char} : ∀ {l : List Char} {b : Bool},
    c ∈ subRunsAux b l → isAllowedChar c = true := by
  intro l
  induction l with
  | nil => intro b h; simp [subRunsAux] at h
  | cons a rest ih =>
      intro b h
      rw [subRunsAux] at h
      by_cases ha : isAllowedChar a = true
      · rw [if_pos ha] at h
        rcases List.mem_cons.mp h with rfl | h
        · exact ha
        · exact ih h
      · rw [if_neg ha] at h
        cases b with
        | true => exact ih h
        | false =>
            rcases List.mem_cons.mp (by simpa using h) with rfl | h
            · rfl
            · exact ih h

theorem mem_subRuns_allowed {c : Char} {l : List Char}
    (h : c ∈ subRuns l) : isAllowedChar c = true :=
  mem_subRunsAux_allowed h

theorem subRunsAux_of_allowed : ∀ {l : List Char} {b : Bool},
    (∀ c ∈ l, isAllowedChar c = true) → subRunsAux b l = l := by
  intro l
  induction l with
  | nil => intro b _; rfl
  | cons a rest ih =>
      intro b h
      have ha : isAllowedChar a = true := h a (List.mem_cons_self a rest)
      rw [subRunsAux, if_pos ha, ih (fun c hc => h c (List.mem_cons_of_mem a hc))]

theorem subRuns_of_allowed {l : List Char}
    (h : ∀ c ∈ l, isAllowedChar c = true) : subRuns l = l :=
  subRunsAux_of_allowed h

theorem dropWhile_of_none {p : Char → Bool} : ∀ {l : List Char},
    (∀ c ∈ l, p c = false) → l.dropWhile p = l := by
  intro l h
  cases l with
  | nil => rfl
  | cons a rest =>
      rw [List.dropWhile_cons, if_neg]
      simp [h a (List.mem_cons_self a rest)]

theorem stripBoth_of_none {p : Char → Bool} {l : List Char}
    (h : ∀ c ∈ l, p c = false) : stripBoth p l = l := by
  unfold stripBoth dropTrailing
  rw [dropWhile_of_none h]
  rw [dropWhile_of_none (by intro c hc; exact h c (List.mem_reverse.mp hc))]
  exact List.reverse_reverse l

theorem mem_stripBoth {p : Char → Bool} {c : Char} {l : List Char}
    (h : c ∈ stripBoth p l) : c ∈ l := by
  unfold stripBoth dropTrailing at h
  have h1 := (List.dropWhile_sublist (l := (l.dropWhile p).reverse) (p := p)).mem
      (List.mem_reverse.mp h)
  have h2 := (List.dropWhile_sublist (l := l) (p := p)).mem (List.mem_reverse.mp h1)
  exact h2

theorem head_dropWhile_false {p : Char → Bool} : ∀ {l : List Char} {c : Char},
    (l.dropWhile p).head? = some c → p c = false := by
  intro l
  induction l with
  | nil => intro c h; simp at h
  | cons a rest ih =>
      intro c h
      rw [List.dropWhile_cons] at h
      by_cases hp : p a = true
      · rw [if_pos hp] at h; exact ih h
      · rw [if_neg hp] at h
        simp at h
        rw [← h]
        simpa using hp

theorem dropTrailing_eq_rdropWhile (p : Char → Bool) (l : List Char) :
    dropTrailing p l = List.rdropWhile p l := rfl

theorem dropTrailing_prefix (p : Char → Bool) (l : List Char) :
    dropTrailing p l <+: l := by
  rw [dropTrailing_eq_rdropWhile]
  exact List.rdropWhile_prefix p l

theorem head_dropTrailing {p : Char → Bool} {l : List Char} {c : Char}
    (h : (dropTrailing p l).head? = some c) : l.head? = some c := by
  rcases dropTrailing_prefix p l with ⟨t, ht⟩
  rcases hd : dropTrailing p l with _ | ⟨a, rest⟩
  · rw [hd] at h; simp at h
  · rw [hd] at h ht
    simp at h
    rw [← ht]
    simp [h]

theorem getLast_dropTrailing_false {p : Char → Bool} {l : List Char} {c : Char}
    (h : (dropTrailing p l).getLast? = some c) : p c = false := by
  unfold dropTrailing at h
  rw [List.getLast?_reverse] at h
  exact head_dropWhile_false h

theorem head_stripBoth_false {p : Char → Bool} {l : List Char} {c : Char}
    (h : (stripBoth p l).head? = some c) : p c = false := by
  unfold stripBoth at h
  exact head_dropWhile_false (head_dropTrailing h)

theorem getLast_stripBoth_false {p : Char → Bool} {l : List Char} {c : Char}
    (h : (stripBoth p l).getLast? = some c) : p c = false := by
  unfold stripBoth at h
  exact getLast_dropTrailing_false h

theorem stripBoth_of_ends {p : Char → Bool} {l : List Char}
    (hh : ∀ c, l.head? = some c → p c = false)
    (hl : ∀ c, l.getLast? = some c → p c = false) :
    stripBoth p l = l := by
  unfold stripBoth dropTrailing
  have h1 : l.dropWhile p = l := by
    cases l with
    | nil => rfl
    | cons a rest =>
        rw [List.dropWhile_cons, if_neg]
        simp [hh a rfl]
  rw [h1]
  have h2 : l.reverse.dropWhile p = l.reverse := by
    cases hrev : l.reverse with
    | nil => rfl
    | cons a rest =>
        rw [List.dropWhile_cons, if_neg]
        have : l.getLast? = some a := by
          rw [← List.head?_reverse, hrev]; rfl
        simp [hl a this]
  rw [h2, List.reverse_reverse]

theorem allowed_not_space {c : Char} (h : isAllowedChar c = true) :
    isSpaceChar c = false := by
  rcases hs : isSpaceChar c with _ | _
  · rfl
  · exfalso
    have hd : c = ' ' ∨ c = '\t' ∨ c = '\r' ∨ c = '\n' := by
      simpa [isSpaceChar, Char.isWhitespace, or_assoc] using hs
    rcases hd with rfl | rfl | rfl | rfl <;> exact absurd h (by decide)

theorem safeList_allowed {l : List Char} :
    ∀ c ∈ safeList l, isAllowedChar c = true := by
  intro c hc
  unfold safeList at hc
  by_cases he :
      (stripBoth (fun c => c == '-') (subRuns (stripBoth isSpaceChar l))).isEmpty = true
  · rw [if_pos he] at hc
    fin_cases hc <;> decide
  · rw [if_neg he] at hc
    exact mem_subRuns_allowed (mem_stripBoth hc)

theorem safeList_ne_nil {l : List Char} : safeList l ≠ [] := by
  unfold safeList
  by_cases he :
      (stripBoth (fun c => c == '-') (subRuns (stripBoth isSpaceChar l))).isEmpty = true
  · rw [if_pos he]; decide
  · rw [if_neg he]
    simpa [List.isEmpty_iff] using he

theorem safeList_head {l : List Char} : (safeList l).head? ≠ some '-' := by
  unfold safeList
  by_cases he :
      (stripBoth (fun c => c == '-') (subRuns (stripBoth isSpaceChar l))).isEmpty = true
  · rw [if_pos he]; decide
  · rw [if_neg he]
    intro h
    have := head_stripBoth_false h
    simp at this

theorem safeList_getLast {l : List Char} : (safeList l).getLast? ≠ some '-' := by
  unfold safeList
  by_cases he :
      (stripBoth (fun c => c == '-') (subRuns (stripBoth isSpaceChar l))).isEmpty = true
  · rw [if_pos he]; decide
  · rw [if_neg he]
    intro h
    have := getLast_stripBoth_false h
    simp at this

theorem safeList_fixed {t : List Char}
    (hall : ∀ c ∈ t, isAllowedChar c = true)
    (hh : t.head? ≠ some '-') (hl : t.getLast? ≠ some '-')
    (hne : t ≠ []) : safeList t = t := by
  have hspace : stripBoth isSpaceChar t = t :=
    stripBoth_of_none (fun c hc => allowed_not_space (hall c hc))
  have hsub : subRuns t = t := subRuns_of_allowed hall
  have hdash : stripBoth (fun c => c == '-') t = t := by
    refine stripBoth_of_ends (fun c hc => ?_) (fun c hc => ?_)
    · have : c ≠ '-' := fun h => hh (h ▸ hc)
      simpa using this
    · have : c ≠ '-' := fun h => hl (h ▸ hc)
      simpa using this
  unfold safeList
  rw [hspace, hsub, hdash, if_neg (by simpa [List.isEmpty_iff] using hne)]

theorem safeList_idem (l : List Char) : safeList (safeList l) = safeList l :=
  safeList_fixed safeList_allowed safeList_head safeList_getLast safeList_ne_nil

/-- C1: for every string `s`, `safe s` (the `_safe` sanitizer of
`storage.py`) contains only characters in `[A-Za-z0-9_.-]`, never starts
or ends with `'-'`, is never empty (an empty trim result becomes the
literal `"untitled"`), and the sanitizer is idempotent. -/
theorem safe_sanitize_spec (s : String) :
    (∀ c ∈ (safe s).toList, isAllowedChar c = true) ∧
    (safe s).toList.head? ≠ some '-' ∧
    (safe s).toList.getLast? ≠ some '-' ∧
    safe s ≠ "" ∧
    (stripBoth (fun c => c == '-') (subRuns (stripBoth isSpaceChar s.toList)) = [] →
      safe s = "untitled") ∧
    safe (safe s) = safe s := by
  have htl : (safe s).toList = safeList s.toList := rfl
  refine ⟨?_, ?_, ?_, ?_, ?_, ?_⟩
  · rw [htl]; exact safeList_allowed
  · rw [htl]; exact safeList_head
  · rw [htl]; exact safeList_getLast
  · intro h
    exact safeList_ne_nil (congrArg String.toList h)
  · intro h
    show (⟨safeList s.toList⟩ : String) = "untitled"
    unfold safeList
    rw [h]
    rfl
  · show (⟨safeList (safe s).toList⟩ : String) = ⟨safeList s.toList⟩
    rw [htl, safeList_idem]

/-- Witness for the hypothesis-bearing conjunct of `safe_sanitize_spec`:
at `s = "!!"` the trim result is empty and the sanitizer yields
`"untitled"`. -/
theorem safe_sanitize_spec_witness :
    safe ("!!" : String) = "untitled" :=
  (safe_sanitize_spec "!!").2.2.2.2.1 (by decide)


/-! ### C2: custom-mode bucketing -/

/-- C2: with `exportMode = custom` and a resolvable timezone, path
resolution uses `days = max(1, customPeriodDays)` (so `customPeriodDays
≤ 0` is normalized to `1` and never fails), computes `offset =
dayOfYear(localDate) mod days`, takes `bucketStart = localDate - offset`
days, and returns
`{sanitizedChannel}/{Y}-{M}-{D}_d{days}.md` — i.e. the code's relative
path equals the specification's formula `specCustomRelPath`. -/
theorem determineRelPath_custom_spec (cfg : GuildConfig)
    (channel_name : String) (ts : DateTime) (off : Int)
    (hmode : cfg.export_mode = "custom")
    (htz : tzOffsetMinutes? cfg.timezone = some off) :
    determineRelPath cfg channel_name ts =
      some (specCustomRelPath cfg channel_name (toLocal ts off)) ∧
    1 ≤ (max 1 cfg.custom_period_days).toNat ∧
    (cfg.custom_period_days ≤ 0 → (max 1 cfg.custom_period_days).toNat = 1) := by
  refine ⟨?_, ?_, ?_⟩
  · unfold determineRelPath specCustomRelPath
    rw [htz, hmode]
    rfl
  · have h : (1 : Int) ≤ max 1 cfg.custom_period_days := le_max_left _ _
    omega
  · intro h
    have hm : max 1 cfg.custom_period_days = 1 := max_eq_left (by omega)
    rw [hm]
    rfl

/-- Witness for C2: the specification's own example — `days = 7`,
day-of-year 10 gives offset `10 mod 7 = 3` and bucket start at
day-of-year 7, here `2023-01-07`. -/
theorem determineRelPath_custom_spec_witness :
    determineRelPath cfgCustom7 "general" tsJan10 =
      some ["general", "2023-01-07_d7.md"] ∧
    dayOfYear (toLocal tsJan10 0) % 7 = 3 := by
  constructor
  · have h := (determineRelPath_custom_spec cfgCustom7 "general" tsJan10 0
      rfl rfl).1
    rw [h]
    rfl
  · rfl

/-! ### C3: path resolution is deterministic but not side-effect-free -/

theorem addDir_files (fs : FS) (d : List String) :
    (fs.addDir d).files = fs.files := by
  unfold FS.addDir
  split <;> rfl

theorem foldl_addDir_files : ∀ (l : List (List String)) (fs : FS),
    (l.foldl FS.addDir fs).files = fs.files := by
  intro l
  induction l with
  | nil => intro fs; rfl
  | cons d rest ih =>
      intro fs
      rw [List.foldl_cons, ih, addDir_files]

theorem mkdirParents_files (fs : FS) (p : List String) :
    (fs.mkdirParents p).files = fs.files :=
  foldl_addDir_files _ fs

theorem mem_addDir_self (fs : FS) (d : List String) :
    d ∈ (fs.addDir d).dirs := by
  unfold FS.addDir
  by_cases h : d ∈ fs.dirs
  · rw [if_pos h]; exact h
  · rw [if_neg h]; simp

theorem addDir_mono {fs : FS} {x : List String} (d : List String)
    (h : x ∈ fs.dirs) : x ∈ (fs.addDir d).dirs := by
  unfold FS.addDir
  split
  · exact h
  · simp [h]

theorem foldl_addDir_mono : ∀ (l : List (List String)) {fs : FS}
    {x : List String}, x ∈ fs.dirs → x ∈ (l.foldl FS.addDir fs).dirs := by
  intro l
  induction l with
  | nil => intro fs x h; exact h
  | cons d rest ih =>
      intro fs x h
      rw [List.foldl_cons]
      exact ih (addDir_mono d h)

theorem mkdirParents_mono {fs : FS} {x : List String} (p : List String)
    (h : x ∈ fs.dirs) : x ∈ (fs.mkdirParents p).dirs :=
  foldl_addDir_mono _ h

theorem mem_foldl_addDir : ∀ (l : List (List String)) (fs : FS)
    {d : List String}, d ∈ l → d ∈ (l.foldl FS.addDir fs).dirs := by
  intro l
  induction l with
  | nil => intro fs d h; simp at h
  | cons a rest ih =>
      intro fs d h
      rw [List.foldl_cons]
      rcases List.mem_cons.mp h with rfl | h
      · exact foldl_addDir_mono rest (mem_addDir_self fs d)
      · exact ih _ h

theorem mem_mkdirParents {fs : FS} {p d : List String}
    (h : d ∈ prefixesOf p) : d ∈ (fs.mkdirParents p).dirs :=
  mem_foldl_addDir _ fs h

theorem foldl_addDir_noop : ∀ (l : List (List String)) (fs : FS),
    (∀ d ∈ l, d ∈ fs.dirs) → l.foldl FS.addDir fs = fs := by
  intro l
  induction l with
  | nil => intro fs _; rfl
  | cons a rest ih =>
      intro fs h
      rw [List.foldl_cons]
      have ha : fs.addDir a = fs := by
        unfold FS.addDir
        rw [if_pos (h a (List.mem_cons_self a rest))]
      rw [ha]
      exact ih fs (fun d hd => h d (List.mem_cons_of_mem a hd))

theorem mkdirParents_noop {fs : FS} {p : List String}
    (h : ∀ d ∈ prefixesOf p, d ∈ fs.dirs) : fs.mkdirParents p = fs :=
  foldl_addDir_noop _ fs h

/-- C3, amended: `determine_file_path` returns the same path for the same
`(config, channelName, timestamp)` regardless of the filesystem state,
and it modifies no file contents — but it is not side-effect-free: its
one effect is idempotently creating the directories along the resolved
path, so a second identical call leaves the state fixed. -/
theorem determine_file_path_state (root : List String) (cfg : GuildConfig)
    (channel_name : String) (ts : DateTime) (fs fs' : FS) :
    ((determine_file_path root fs cfg channel_name ts).map Prod.fst =
      (determine_file_path root fs' cfg channel_name ts).map Prod.fst) ∧
    (∀ p fsOut,
      determine_file_path root fs cfg channel_name ts = some (p, fsOut) →
      fsOut.files = fs.files ∧
      determine_file_path root fsOut cfg channel_name ts = some (p, fsOut)) := by
  constructor
  · unfold determine_file_path
    cases determineRelPath cfg channel_name ts <;> rfl
  · intro p fsOut h
    unfold determine_file_path at h
    cases hrel : determineRelPath cfg channel_name ts with
    | none => rw [hrel] at h; exact absurd h (by simp)
    | some rel =>
        rw [hrel] at h
        simp only [Option.some.injEq, Prod.mk.injEq] at h
        obtain ⟨hp, hfsOut⟩ := h
        constructor
        · rw [← hfsOut, mkdirParents_files, mkdirParents_files]
        · unfold determine_file_path
          rw [hrel]
          have hbase : ∀ d ∈ prefixesOf (basePathSegs root cfg),
              d ∈ fsOut.dirs := by
            intro d hd
            rw [← hfsOut]
            exact mkdirParents_mono _ (mem_mkdirParents hd)
          have hpar : ∀ d ∈ prefixesOf ((basePathSegs root cfg ++ rel).dropLast),
              d ∈ fsOut.dirs := by
            intro d hd
            rw [← hfsOut]
            exact mem_mkdirParents hd
          show some (basePathSegs root cfg ++ rel,
            FS.mkdirParents (FS.mkdirParents fsOut (basePathSegs root cfg))
              ((basePathSegs root cfg ++ rel).dropLast)) = some (p, fsOut)
          rw [mkdirParents_noop hbase, mkdirParents_noop hpar, hp]

/-- Witness for `determine_file_path_state`: a concrete resolution whose
second run is a no-op on the state. -/
theorem determine_file_path_state_witness :
    determine_file_path [] ⟨[], []⟩ cfgMonthly "general" tsMar1 =
      some (["1", "vaults", "general", "2024-03.md"],
        ⟨[["1"], ["1", "vaults"], ["1", "vaults", "general"]], []⟩) ∧
    (⟨[["1"], ["1", "vaults"], ["1", "vaults", "general"]], []⟩ : FS).files =
      (⟨[], []⟩ : FS).files ∧
    determine_file_path []
        ⟨[["1"], ["1", "vaults"], ["1", "vaults", "general"]], []⟩
        cfgMonthly "general" tsMar1 =
      some (["1", "vaults", "general", "2024-03.md"],
        ⟨[["1"], ["1", "vaults"], ["1", "vaults", "general"]], []⟩) := by
  have h := (determine_file_path_state [] cfgMonthly "general" tsMar1
    ⟨[], []⟩ ⟨[], []⟩).2
    (["1", "vaults", "general", "2024-03.md"])
    (⟨[["1"], ["1", "vaults"], ["1", "vaults", "general"]], []⟩) (by rfl)
  exact ⟨by rfl, h.1, h.2⟩

/-- C3, counterexample to the claim as stated: resolution is not free of
side effects — on an empty filesystem it creates the vault and channel
directories, so the state after the call differs from the state before. -/
theorem determine_file_path_creates_dirs :
    (determine_file_path [] ⟨[], []⟩ cfgMonthly "general" tsMar1).map
        Prod.snd ≠ some (⟨[], []⟩ : FS) := by
  decide

/-! ### C10: sanitized paths and vault containment -/

theorem toList_append (a b : String) :
    (a ++ b).toList = a.toList ++ b.toList := by
  simp [String.toList]

theorem mem_natDigitsAux {c : Char} : ∀ (fuel n : Nat) (acc : List Char),
    c ∈ natDigitsAux fuel n acc → c ∈ acc ∨ c.isDigit = true := by
  intro fuel
  induction fuel with
  | zero => intro n acc h; exact Or.inl h
  | succ fuel ih =>
      intro n acc h
      rw [natDigitsAux] at h
      have hdig : (Char.ofNat (48 + n % 10)).isDigit = true := by
        have hr := Nat.mod_lt n (show 0 < 10 by omega)
        generalize n % 10 = r at hr
        interval_cases r <;> decide
      by_cases hn : n < 10
      · rw [if_pos hn] at h
        rcases List.mem_cons.mp h with rfl | h
        · exact Or.inr hdig
        · exact Or.inl h
      · rw [if_neg hn] at h
        rcases ih (n / 10) _ h with h' | h'
        · rcases List.mem_cons.mp h' with rfl | h'
          · exact Or.inr hdig
          · exact Or.inl h'
        · exact Or.inr h'

theorem mem_natRepr_isDigit {c : Char} {n : Nat}
    (h : c ∈ (natRepr n).toList) : c.isDigit = true := by
  rcases mem_natDigitsAux (n + 1) n [] h with h' | h'
  · simp at h'
  · exact h'

theorem noSlash_natRepr (n : Nat) : '/' ∉ (natRepr n).toList := by
  intro h
  exact absurd (mem_natRepr_isDigit h) (by decide)

theorem noSlash_append {a b : String} (ha : '/' ∉ a.toList)
    (hb : '/' ∉ b.toList) : '/' ∉ (a ++ b).toList := by
  intro h
  rw [toList_append] at h
  rcases List.mem_append.mp h with h | h
  · exact ha h
  · exact hb h

theorem noSlash_pad2 (n : Nat) : '/' ∉ (pad2 n).toList := by
  unfold pad2
  split
  · exact noSlash_append (by decide) (noSlash_natRepr n)
  · exact noSlash_natRepr n

theorem noSlash_pad4 (n : Nat) : '/' ∉ (pad4 n).toList := by
  unfold pad4
  split
  · exact noSlash_append (by decide) (noSlash_natRepr n)
  · split
    · exact noSlash_append (by decide) (noSlash_natRepr n)
    · split
      · exact noSlash_append (by decide) (noSlash_natRepr n)
      · exact noSlash_natRepr n

theorem noSlash_safe (s : String) : '/' ∉ (safe s).toList := by
  intro h
  exact absurd (safeList_allowed _ h) (by decide)

theorem md_ne_dotdot (a : String) : a ++ ".md" ≠ ".." := by
  intro h
  have hlen : a.length + (".md" : String).length = (".." : String).length := by
    rw [← String.length_append, h]
  rw [show (".md" : String).length = 3 from rfl,
    show (".." : String).length = 2 from rfl] at hlen
  omega

theorem md_ne_dot (a : String) : a ++ ".md" ≠ "." := by
  intro h
  have hlen : a.length + (".md" : String).length = ("." : String).length := by
    rw [← String.length_append, h]
  rw [show (".md" : String).length = 3 from rfl,
    show ("." : String).length = 1 from rfl] at hlen
  omega

theorem append_prefix_strict {B t : List String} (ht : t ≠ []) :
    B <+: B ++ t ∧ B ++ t ≠ B := by
  refine ⟨⟨t, rfl⟩, fun h => ?_⟩
  have hl := congrArg List.length h
  rw [List.length_append] at hl
  exact ht (List.length_eq_zero.mp (by omega))

theorem normalize_append_shape (B : List String) (rel : List String)
    (h : (∃ f, rel = [f] ∧ f ≠ "." ∧ f ≠ "..") ∨
      (∃ s f, rel = [s, f] ∧ s ≠ ".." ∧ f ≠ "." ∧ f ≠ "..")) :
    normalizeSegs B <+: normalizeSegs (B ++ rel) ∧
    normalizeSegs (B ++ rel) ≠ normalizeSegs B := by
  have hfold : normalizeSegs (B ++ rel) = rel.foldl normStep (normalizeSegs B) := by
    unfold normalizeSegs
    rw [List.foldl_append]
  rcases h with ⟨f, rfl, hf1, hf2⟩ | ⟨s, f, rfl, hs, hf1, hf2⟩
  · rw [hfold]
    have hstep : [f].foldl normStep (normalizeSegs B) = normalizeSegs B ++ [f] := by
      simp [normStep, hf1, hf2]
    rw [hstep]
    exact append_prefix_strict (by simp)
  · rw [hfold]
    by_cases hdot : s = "."
    · have hstep : [s, f].foldl normStep (normalizeSegs B) =
          normalizeSegs B ++ [f] := by
        subst hdot
        simp [normStep, hf1, hf2]
      rw [hstep]
      exact append_prefix_strict (by simp)
    · have hstep : [s, f].foldl normStep (normalizeSegs B) =
          normalizeSegs B ++ [s, f] := by
        simp [normStep, hdot, hs, hf1, hf2]
      rw [hstep]
      exact append_prefix_strict (by simp)

/-- C10, amended: in the four fixed bucketing modes the sanitized channel
slug contains no path separator, and — provided the slug is not the
literal `".."`, which the sanitizer does allow — every resolved relative
path stays strictly inside the vault base `{root}/{guildId}/{vaultPath}`
after lexical `..`-resolution. -/
theorem resolved_path_inside_vault (root : List String) (cfg : GuildConfig)
    (channel_name : String) (ts : DateTime) (rel : List String)
    (hmode : cfg.export_mode = "single" ∨ cfg.export_mode = "daily" ∨
      cfg.export_mode = "monthly" ∨ cfg.export_mode = "custom")
    (hslug : safe channel_name ≠ "..")
    (hrel : determineRelPath cfg channel_name ts = some rel) :
    (∀ seg ∈ rel, '/' ∉ seg.toList) ∧
    normalizeSegs (basePathSegs root cfg) <+:
      normalizeSegs (basePathSegs root cfg ++ rel) ∧
    normalizeSegs (basePathSegs root cfg ++ rel) ≠
      normalizeSegs (basePathSegs root cfg) := by
  unfold determineRelPath at hrel
  cases htz : tzOffsetMinutes? cfg.timezone with
  | none => rw [htz] at hrel; exact absurd hrel (by simp)
  | some off =>
    rw [htz] at hrel
    dsimp only at hrel
    rcases hmode with hm | hm | hm | hm <;> rw [hm] at hrel
    · rw [if_pos rfl] at hrel
      obtain rfl : [safe channel_name ++ ".md"] = rel := Option.some.inj hrel
      refine ⟨?_, normalize_append_shape _ _ (Or.inl
        ⟨_, rfl, md_ne_dot _, md_ne_dotdot _⟩)⟩
      intro seg hseg
      rcases List.mem_singleton.mp hseg with rfl
      exact noSlash_append (noSlash_safe _) (by decide)
    · rw [if_neg (by decide), if_pos rfl] at hrel
      obtain rfl := Option.some.inj hrel
      refine ⟨?_, normalize_append_shape _ _ (Or.inr
        ⟨_, _, rfl, hslug, md_ne_dot _, md_ne_dotdot _⟩)⟩
      intro seg hseg
      rcases List.mem_cons.mp hseg with rfl | hseg
      · exact noSlash_safe _
      · rcases List.mem_singleton.mp hseg with rfl
        exact noSlash_append (noSlash_append (noSlash_append (noSlash_append
          (noSlash_append (noSlash_pad4 _) (by decide)) (noSlash_pad2 _))
          (by decide)) (noSlash_pad2 _)) (by decide)
    · rw [if_neg (by decide), if_neg (by decide), if_pos rfl] at hrel
      obtain rfl := Option.some.inj hrel
      refine ⟨?_, normalize_append_shape _ _ (Or.inr
        ⟨_, _, rfl, hslug, md_ne_dot _, md_ne_dotdot _⟩)⟩
      intro seg hseg
      rcases List.mem_cons.mp hseg with rfl | hseg
      · exact noSlash_safe _
      · rcases List.mem_singleton.mp hseg with rfl
        exact noSlash_append (noSlash_append (noSlash_append (noSlash_pad4 _)
          (by decide)) (noSlash_pad2 _)) (by decide)
    · rw [if_neg (by decide), if_neg (by decide), if_neg (by decide),
        if_pos rfl] at hrel
      obtain rfl := Option.some.inj hrel
      refine ⟨?_, normalize_append_shape _ _ (Or.inr
        ⟨_, _, rfl, hslug, md_ne_dot _, md_ne_dotdot _⟩)⟩
      intro seg hseg
      rcases List.mem_cons.mp hseg with rfl | hseg
      · exact noSlash_safe _
      · rcases List.mem_singleton.mp hseg with rfl
        exact noSlash_append (noSlash_append (noSlash_append (noSlash_append
          (noSlash_append (noSlash_append (noSlash_append (noSlash_pad4 _)
            (by decide)) (noSlash_pad2 _)) (by decide)) (noSlash_pad2 _))
          (by decide)) (noSlash_natRepr _)) (by decide)

/-- Witness for `resolved_path_inside_vault` at a concrete input. -/
theorem resolved_path_inside_vault_witness :
    (∀ seg ∈ ["general", "2024-03.md"], '/' ∉ seg.toList) ∧
    normalizeSegs (basePathSegs [] cfgMonthly) <+:
      normalizeSegs (basePathSegs [] cfgMonthly ++ ["general", "2024-03.md"]) ∧
    normalizeSegs (basePathSegs [] cfgMonthly ++ ["general", "2024-03.md"]) ≠
      normalizeSegs (basePathSegs [] cfgMonthly) :=
  resolved_path_inside_vault [] cfgMonthly "general" tsMar1
    ["general", "2024-03.md"] (Or.inr (Or.inr (Or.inl rfl))) (by decide) rfl

/-- C10, counterexample to the claim as stated: the sanitizer maps the
channel name `".."` to the slug `".."` (dots are allowed characters), so
in `monthly` mode the resolved path escapes the vault root: it
normalizes to a path outside `{root}/{guildId}/{vaultPath}`. -/
theorem resolved_path_escape :
    safe ".." = ".." ∧
    determineRelPath cfgMonthly ".." tsMar1 = some ["..", "2024-03.md"] ∧
    ¬ (normalizeSegs (basePathSegs [] cfgMonthly) <+:
        normalizeSegs (basePathSegs [] cfgMonthly ++ ["..", "2024-03.md"])) := by
  refine ⟨rfl, rfl, ?_⟩
  decide

/-! ### C4: header written once, entries appended in order -/

theorem str_length_pos {s : String} (h : s ≠ "") : 0 < s.length := by
  cases s with
  | mk data =>
    cases data with
    | nil => exact absurd rfl h
    | cons c cs => simp [String.length]

theorem str_ne_empty_append {a : String} (b : String) (h : a ≠ "") :
    a ++ b ≠ "" := by
  intro he
  have hl := congrArg String.length he
  rw [String.length_append] at hl
  have ha := str_length_pos h
  have h0 : ("" : String).length = 0 := rfl
  omega

theorem markdownHeader_ne_empty (channel : String) (server : Int)
    (period export_mode generated : String) :
    markdownHeader channel server period export_mode generated ≠ "" := by
  unfold markdownHeader
  exact str_ne_empty_append _ (str_ne_empty_append _ (str_ne_empty_append _
    (str_ne_empty_append _ (str_ne_empty_append _ (str_ne_empty_append _
    (str_ne_empty_append _ (str_ne_empty_append _ (str_ne_empty_append _
    (str_ne_empty_append _ (by decide))))))))))

theorem find_setEntry_self : ∀ (l : List (List String × String))
    (p : List String) (c : String),
    (setEntry l p c).find? (fun e => e.1 == p) = some (p, c) := by
  intro l
  induction l with
  | nil => intro p c; simp [setEntry, List.find?]
  | cons e rest ih =>
      intro p c
      rw [setEntry]
      by_cases he : (e.1 == p) = true
      · rw [if_pos he]
        simp [List.find?]
      · rw [if_neg he]
        simp only [List.find?, he]
        exact ih p c

theorem getFile_setFile (fs : FS) (p : List String) (c : String) :
    (fs.setFile p c).getFile p = some c := by
  unfold FS.getFile FS.setFile
  rw [find_setEntry_self]
  rfl

theorem mkdir_getFile (fs : FS) (q p : List String) :
    (FS.mkdirParents fs q).getFile p = fs.getFile p := by
  unfold FS.getFile
  rw [mkdirParents_files]

theorem append_message_step (root : List String) (fs : FS)
    (cfg : GuildConfig) (call : MessageCall) (rel : List String)
    (hrel : determineRelPath cfg call.channel_name call.timestamp = some rel) :
    ∃ fs', append_message root fs cfg call =
      some (basePathSegs root cfg ++ rel, fs') ∧
    fs'.getFile (basePathSegs root cfg ++ rel) = some
      ((match fs.getFile (basePathSegs root cfg ++ rel) with
        | some c => if 0 < c.length then c
            else markdownHeader call.channel_name cfg.guild_id
              (periodLabel cfg call.timestamp) cfg.export_mode call.now
        | none => markdownHeader call.channel_name cfg.guild_id
            (periodLabel cfg call.timestamp) cfg.export_mode call.now) ++
       entryText call.message_id call.author call.content call.timestamp
         call.attachments call.event) := by
  unfold append_message determine_file_path
  rw [hrel]
  dsimp only
  refine ⟨_, rfl, ?_⟩
  rw [getFile_setFile]
  cases hg : fs.getFile (basePathSegs root cfg ++ rel) with
  | none =>
      simp only [ensure_header, mkdir_getFile, hg, getFile_setFile,
        Option.getD_some]
  | some c =>
      by_cases hc : 0 < c.length
      · simp only [ensure_header, mkdir_getFile, hg, hc, if_true,
          getFile_setFile, Option.getD_some]
      · simp only [ensure_header, mkdir_getFile, hg, hc, if_false,
          getFile_setFile, Option.getD_some]

theorem runAppends_content (root : List String) (cfg : GuildConfig)
    (p : List String) : ∀ (calls : List MessageCall) (fs : FS) (s : String),
    (∀ call ∈ calls, ∃ rel,
      determineRelPath cfg call.channel_name call.timestamp = some rel ∧
      basePathSegs root cfg ++ rel = p) →
    fs.getFile p = some s → s ≠ "" →
    ∃ fs', runAppends root fs cfg calls = some fs' ∧
      fs'.getFile p = some (s ++ concatStrings (calls.map (fun c =>
        entryText c.message_id c.author c.content c.timestamp
          c.attachments c.event))) := by
  intro calls
  induction calls with
  | nil =>
      intro fs s _ hs _
      refine ⟨fs, rfl, ?_⟩
      rw [hs]
      simp [concatStrings]
  | cons call rest ih =>
      intro fs s hres hs hsne
      obtain ⟨rel, hrel, hp⟩ := hres call (List.mem_cons_self call rest)
      obtain ⟨fs1, hstep, hcontent⟩ :=
        append_message_step root fs cfg call rel hrel
      rw [hp] at hstep hcontent
      rw [hs] at hcontent
      dsimp only at hcontent
      rw [if_pos (str_length_pos hsne)] at hcontent
      have hne2 : s ++ entryText call.message_id call.author call.content
          call.timestamp call.attachments call.event ≠ "" :=
        str_ne_empty_append _ hsne
      obtain ⟨fs', hrun, hfinal⟩ := ih fs1 _
        (fun c hc => hres c (List.mem_cons_of_mem call hc)) hcontent hne2
      refine ⟨fs', ?_, ?_⟩
      · rw [runAppends, hstep]
        dsimp only
        exact hrun
      · rw [hfinal]
        simp [concatStrings, String.append_assoc]

/-- C4: starting from a non-existent file, `N ≥ 1` sequential
`append_message` calls that all resolve to the same path leave that file
containing exactly one header block — the one written by the first call —
followed by the `N` entry blocks in call order; the header is never
rewritten and no append truncates or reorders earlier content. -/
theorem append_message_header_once (root : List String) (cfg : GuildConfig)
    (p : List String) (call : MessageCall) (rest : List MessageCall)
    (fs : FS)
    (hres : ∀ c ∈ call :: rest, ∃ rel,
      determineRelPath cfg c.channel_name c.timestamp = some rel ∧
      basePathSegs root cfg ++ rel = p)
    (hnew : fs.getFile p = none) :
    ∃ fs', runAppends root fs cfg (call :: rest) = some fs' ∧
      fs'.getFile p = some
        (markdownHeader call.channel_name cfg.guild_id
          (periodLabel cfg call.timestamp) cfg.export_mode call.now ++
         concatStrings ((call :: rest).map (fun c =>
           entryText c.message_id c.author c.content c.timestamp
             c.attachments c.event))) := by
  obtain ⟨rel, hrel, hp⟩ := hres call (List.mem_cons_self call rest)
  obtain ⟨fs1, hstep, hcontent⟩ := append_message_step root fs cfg call rel hrel
  rw [hp] at hstep hcontent
  rw [hnew] at hcontent
  dsimp only at hcontent
  have hne : markdownHeader call.channel_name cfg.guild_id
      (periodLabel cfg call.timestamp) cfg.export_mode call.now ++
      entryText call.message_id call.author call.content call.timestamp
        call.attachments call.event ≠ "" :=
    str_ne_empty_append _ (markdownHeader_ne_empty _ _ _ _ _)
  obtain ⟨fs', hrun, hfinal⟩ := runAppends_content root cfg p rest fs1 _
    (fun c hc => hres c (List.mem_cons_of_mem call hc)) hcontent hne
  refine ⟨fs', ?_, ?_⟩
  · rw [runAppends, hstep]
    dsimp only
    exact hrun
  · rw [hfinal]
    simp [concatStrings, String.append_assoc]

/-- Witness for `append_message_header_once`: two concrete calls into a
single-mode vault. -/
theorem append_message_header_once_witness :
    ∃ fs', runAppends [] ⟨[], []⟩ cfgSingle [callA, callB] = some fs' ∧
      fs'.getFile ["1", "vaults", "general.md"] = some
        (markdownHeader callA.channel_name cfgSingle.guild_id
          (periodLabel cfgSingle callA.timestamp) cfgSingle.export_mode
          callA.now ++
         concatStrings ([callA, callB].map (fun c =>
           entryText c.message_id c.author c.content c.timestamp
             c.attachments c.event))) := by
  refine append_message_header_once [] cfgSingle ["1", "vaults", "general.md"]
    callA [callB] ⟨[], []⟩ ?_ rfl
  intro c hc
  rcases List.mem_cons.mp hc with rfl | hc
  · exact ⟨["general.md"], rfl, rfl⟩
  · rcases List.mem_singleton.mp hc with rfl
    exact ⟨["general.md"], rfl, rfl⟩

/-! ### C5: the entry format and its timestamp -/

theorem joinSep_map_newline (pre : String) : ∀ (u : String) (urls : List String),
    joinSep "\n" ((u :: urls).map (fun x => pre ++ x)) ++ "\n" =
      concatStrings ((u :: urls).map (fun x => pre ++ x ++ "\n")) := by
  intro u urls
  induction urls generalizing u with
  | nil => simp [joinSep, concatStrings]
  | cons v rest ih =>
      have hj : joinSep "\n" (((u :: v :: rest)).map (fun x => pre ++ x)) =
          (pre ++ u) ++ "\n" ++
            joinSep "\n" ((v :: rest).map (fun x => pre ++ x)) := rfl
      have hr : concatStrings (((u :: v :: rest)).map
            (fun x => pre ++ x ++ "\n")) =
          (pre ++ u ++ "\n") ++
            concatStrings ((v :: rest).map (fun x => pre ++ x ++ "\n")) := rfl
      rw [hj, hr, ← ih v]
      simp [String.append_assoc]

/-- C5, amended: every appended entry is the heading line
`### <stamp> <author>` — where the stamp formats the timestamp argument
exactly as passed, with no conversion to the configured timezone —
followed by the content (or `[no content]` when empty), a message-id
line, an event-kind line, one `- Attachment: <url>` line per attachment,
and a blank separator line. -/
theorem entryText_format (message_id : Int) (author content : String)
    (ts : DateTime) (attachments : List String) (event : String) :
    entryText message_id author content ts attachments event =
      "### " ++ fmtStamp ts ++ " " ++ author ++ "\n" ++
      (if content = "" then "[no content]" else content) ++ "\n" ++
      "- Message ID: " ++ intRepr message_id ++ "\n" ++
      "- Event: " ++ event ++ "\n" ++
      concatStrings (attachments.map (fun url =>
        "- Attachment: " ++ url ++ "\n")) ++
      "\n" := by
  cases attachments with
  | nil =>
      unfold entryText
      simp [concatStrings, String.append_assoc]
  | cons u urls =>
      unfold entryText
      have hne : ((u :: urls).map (fun url => "- Attachment: " ++ url)).isEmpty = false := by
        simp
      rw [show ((u :: urls).isEmpty) = false from rfl]
      simp only [Bool.false_eq_true, if_false]
      rw [← joinSep_map_newline "- Attachment: " u urls]
      simp [String.append_assoc]

/-- C5, counterexample to the claim as stated: with configured timezone
`Etc/GMT-1` (UTC+60 minutes) the appended entry's heading shows the raw
timestamp `12:00`, not the converted local time `13:00` — the entry
written to the file starts with the unconverted stamp. -/
theorem append_message_stamp_not_localized :
    tzOffsetMinutes? cfgSingleTz.timezone = some 60 ∧
    (∃ fs', append_message [] ⟨[], []⟩ cfgSingleTz
        { channel_name := "general", message_id := 42, author := "@alice",
          content := "hi", timestamp := tsNoon, now := "T0" } =
      some (["1", "vaults", "general.md"], fs') ∧
      fs'.getFile ["1", "vaults", "general.md"] =
        some (markdownHeader "general" 1 "all" "single" "T0" ++
          entryText 42 "@alice" "hi" tsNoon [] "message")) ∧
    fmtStamp (toLocal tsNoon 60) = "2024-01-01 13:00" ∧
    strStartsWith (entryText 42 "@alice" "hi" tsNoon [] "message")
      ("### " ++ fmtStamp (toLocal tsNoon 60)) = false ∧
    strStartsWith (entryText 42 "@alice" "hi" tsNoon [] "message")
      ("### " ++ fmtStamp tsNoon) = true := by
  refine ⟨rfl, ⟨_, rfl, rfl⟩, rfl, rfl, rfl⟩

/-! ### C6: purge scoping and counting -/

theorem contains_cons_bool (p q : List String) (Q : List (List String)) :
    ((p :: Q).contains q) = ((q == p) || Q.contains q) := by
  have hd : (q == p) = decide (q = p) := by
    by_cases h : q = p
    · subst h; simp
    · rw [decide_eq_false h, beq_eq_false_iff_ne.mpr h]
  simp [List.contains_eq_any_beq, List.any_cons, hd]

theorem purgeLoop_some_count (ch : String) (hch : ch ≠ "") :
    ∀ (paths : List (List String)) (fs : FS) (n : Nat),
    (purgeLoop (some ch) paths fs n).1 =
      n + (paths.filter (fun p => p.contains (safe ch))).length := by
  intro paths
  induction paths with
  | nil => intro fs n; simp [purgeLoop]
  | cons p rest ih =>
      intro fs n
      rw [purgeLoop]
      dsimp only
      rw [show (ch == "") = false from beq_eq_false_iff_ne.mpr hch]
      simp only [Bool.not_false, Bool.true_and]
      by_cases hk : p.contains (safe ch) = true
      · rw [hk]
        simp only [Bool.not_true, Bool.false_eq_true, if_false]
        rw [ih]
        have hfil : List.filter (fun q : List String => q.contains (safe ch))
            (p :: rest) =
            p :: List.filter (fun q => q.contains (safe ch)) rest :=
          List.filter_cons_of_pos hk
        rw [hfil]
        simp
        omega
      · rw [show p.contains (safe ch) = false from Bool.eq_false_iff.mpr hk]
        simp only [Bool.not_false, if_true]
        rw [ih]
        have hfil : List.filter (fun q : List String => q.contains (safe ch))
            (p :: rest) =
            List.filter (fun q => q.contains (safe ch)) rest :=
          List.filter_cons_of_neg hk
        rw [hfil]

theorem purgeLoop_some_files (ch : String) (hch : ch ≠ "") :
    ∀ (paths : List (List String)) (fs : FS) (n : Nat),
    (purgeLoop (some ch) paths fs n).2.files = fs.files.filter (fun e =>
      !((paths.filter (fun p => p.contains (safe ch))).contains e.1)) := by
  intro paths
  induction paths with
  | nil => intro fs n; simp [purgeLoop, List.contains_eq_any_beq]
  | cons p rest ih =>
      intro fs n
      rw [purgeLoop]
      dsimp only
      rw [show (ch == "") = false from beq_eq_false_iff_ne.mpr hch]
      simp only [Bool.not_false, Bool.true_and]
      by_cases hk : p.contains (safe ch) = true
      · rw [hk]
        simp only [Bool.not_true, Bool.false_eq_true, if_false]
        rw [ih]
        have hfil : List.filter (fun q : List String => q.contains (safe ch))
            (p :: rest) =
            p :: List.filter (fun q => q.contains (safe ch)) rest :=
          List.filter_cons_of_pos hk
        rw [hfil]
        show (fs.files.filter (fun e => !(e.1 == p))).filter _ = _
        rw [List.filter_filter]
        refine List.filter_congr (fun e _ => ?_)
        rw [contains_cons_bool]
        simp [Bool.not_or, Bool.and_comm]
      · rw [show p.contains (safe ch) = false from Bool.eq_false_iff.mpr hk]
        simp only [Bool.not_false, if_true]
        rw [ih]
        have hfil : List.filter (fun q : List String => q.contains (safe ch))
            (p :: rest) =
            List.filter (fun q => q.contains (safe ch)) rest :=
          List.filter_cons_of_neg hk
        rw [hfil]

theorem purgeLoop_none_count :
    ∀ (paths : List (List String)) (fs : FS) (n : Nat),
    (purgeLoop none paths fs n).1 = n + paths.length := by
  intro paths
  induction paths with
  | nil => intro fs n; simp [purgeLoop]
  | cons p rest ih =>
      intro fs n
      rw [purgeLoop]
      dsimp only
      rw [if_neg (by simp)]
      rw [ih]
      simp
      omega

theorem purgeLoop_none_files :
    ∀ (paths : List (List String)) (fs : FS) (n : Nat),
    (purgeLoop none paths fs n).2.files = fs.files.filter (fun e =>
      !(paths.contains e.1)) := by
  intro paths
  induction paths with
  | nil => intro fs n; simp [purgeLoop, List.contains_eq_any_beq]
  | cons p rest ih =>
      intro fs n
      rw [purgeLoop]
      dsimp only
      rw [if_neg (by simp)]
      rw [ih]
      show (fs.files.filter (fun e => !(e.1 == p))).filter _ = _
      rw [List.filter_filter]
      refine List.filter_congr (fun e _ => ?_)
      rw [contains_cons_bool]
      simp [Bool.not_or, Bool.and_comm]

theorem contains_of_mem_segs {Q : List (List String)} {q : List String}
    (h : q ∈ Q) : Q.contains q = true :=
  List.elem_eq_true_of_mem h

/-- C6, amended: `purge(config, some channelName)` (with a non-empty
name — Python truthiness) removes exactly the listed `.md` files having
a path segment equal to `sanitize(channelName)` and returns their
number; `purge(config, none)` removes all listed files and returns their
number; in both cases a second purge over the same scope returns 0.  The
count increments for every matching listed path — `unlink(missing_ok =
True)` never fails and a path already missing at deletion time is still
counted (see the counterexample to the original claim). -/
theorem purge_spec (root : List String) (fs : FS) (cfg : GuildConfig)
    (ch : String) (hch : ch ≠ "") :
    (purge root fs cfg (some ch)).1 =
      ((list_files root fs cfg).filter
        (fun p => p.contains (safe ch))).length ∧
    (purge root fs cfg (some ch)).2.files = fs.files.filter (fun e =>
      !(((list_files root fs cfg).filter
        (fun p => p.contains (safe ch))).contains e.1)) ∧
    (purge root (purge root fs cfg (some ch)).2 cfg (some ch)).1 = 0 ∧
    (purge root fs cfg none).1 = (list_files root fs cfg).length ∧
    (purge root fs cfg none).2.files = fs.files.filter (fun e =>
      !((list_files root fs cfg).contains e.1)) ∧
    (purge root (purge root fs cfg none).2 cfg none).1 = 0 := by
  refine ⟨?_, ?_, ?_, ?_, ?_, ?_⟩
  · unfold purge
    rw [purgeLoop_some_count ch hch]
    omega
  · unfold purge
    rw [purgeLoop_some_files ch hch]
  · unfold purge
    rw [purgeLoop_some_count ch hch]
    have hnil : (list_files root
        (purgeLoop (some ch) (list_files root fs cfg) fs 0).2 cfg).filter
        (fun p => p.contains (safe ch)) = [] := by
      rw [List.filter_eq_nil_iff]
      intro q hq hkq
      have hq2 : q ∈ ((purgeLoop (some ch) (list_files root fs cfg)
          fs 0).2.files.map Prod.fst).filter (isListedFile root cfg) := hq
      obtain ⟨hqmem, hqlist⟩ := List.mem_filter.mp hq2
      rw [purgeLoop_some_files ch hch (list_files root fs cfg) fs 0] at hqmem
      obtain ⟨e, he, rfl⟩ := List.mem_map.mp hqmem
      obtain ⟨hefs, hge⟩ := List.mem_filter.mp he
      have hQ : e.1 ∈ (list_files root fs cfg).filter
          (fun p => p.contains (safe ch)) :=
        List.mem_filter.mpr ⟨List.mem_filter.mpr
          ⟨List.mem_map.mpr ⟨e, hefs, rfl⟩, hqlist⟩, hkq⟩
      rw [contains_of_mem_segs hQ] at hge
      simp at hge
    rw [hnil]
    rfl
  · unfold purge
    rw [purgeLoop_none_count]
    omega
  · unfold purge
    rw [purgeLoop_none_files]
  · unfold purge
    rw [purgeLoop_none_count]
    have hnil : list_files root
        (purgeLoop none (list_files root fs cfg) fs 0).2 cfg = [] := by
      show ((purgeLoop none (list_files root fs cfg) fs 0).2.files.map
        Prod.fst).filter (isListedFile root cfg) = []
      rw [List.filter_eq_nil_iff]
      intro q hq hlq
      rw [purgeLoop_none_files (list_files root fs cfg) fs 0] at hq
      obtain ⟨e, he, rfl⟩ := List.mem_map.mp hq
      obtain ⟨hefs, hge⟩ := List.mem_filter.mp he
      have hQ : e.1 ∈ list_files root fs cfg :=
        List.mem_filter.mpr ⟨List.mem_map.mpr ⟨e, hefs, rfl⟩, hlq⟩
      rw [contains_of_mem_segs hQ] at hge
      simp at hge
    rw [hnil]
    rfl

/-- Witness for `purge_spec`: with files for channels `general` and
`random`, purging `general` removes only the `general` file, returns 1,
and a second purge returns 0. -/
theorem purge_spec_witness :
    (purge [] fsP cfgMonthly (some "general")).1 = 1 ∧
    (purge [] fsP cfgMonthly (some "general")).2.files =
      [(["1", "vaults", "random", "2024-03.md"], "y")] ∧
    (purge [] (purge [] fsP cfgMonthly (some "general")).2 cfgMonthly
      (some "general")).1 = 0 := by
  have h := purge_spec [] fsP cfgMonthly "general" (by decide)
  refine ⟨?_, ?_, h.2.2.1⟩
  · rw [h.1]; rfl
  · rw [h.2.1]; rfl

/-- C6, counterexample to the claim as stated: the deletion loop counts a
path as removed even when the file is already missing at unlink time —
`unlink(missing_ok=True)` is followed by an unconditional
`removed += 1`.  On an empty filesystem the loop body still returns
count 1 for its listed path. -/
theorem purgeLoop_counts_missing :
    (⟨[], []⟩ : FS).getFile ["1", "vaults", "general.md"] = none ∧
    purgeLoop none [["1", "vaults", "general.md"]] ⟨[], []⟩ 0 =
      (1, ⟨[], []⟩) := ⟨rfl, rfl⟩

/-! ### C7: configuration loading -/

/-- C7, amended: a missing configuration file and a file that fails JSON
parsing (`json.JSONDecodeError`) are both treated as an empty table; but
a file that parses to JSON of an unexpected shape is not — a top-level
array reaches `payload.items()` and raises (`AttributeError`), and an
entry without `guild_id` raises `KeyError`. -/
theorem ConfigManager_load_degrade :
    ConfigManager.load none = .ok [] ∧
    ConfigManager.load (some (.error ())) = .ok [] ∧
    ConfigManager.load (some (.ok (.arr []))) = .error .attributeError ∧
    ConfigManager.load (some (.ok (.obj [("1", .obj [])]))) =
      .error (.keyError "guild_id") :=
  ⟨rfl, rfl, rfl, rfl⟩

/-- C7, counterexample to the claim as stated: a corrupt file that is
valid JSON of the wrong shape (a top-level array) is not treated as an
empty table — the load raises instead of degrading. -/
theorem ConfigManager_load_raises :
    ConfigManager.load (some (.ok (.arr []))) ≠ .ok [] := by
  intro h
  rw [show ConfigManager.load (some (.ok (.arr []))) =
      Except.error PyError.attributeError from rfl] at h
  exact Except.noConfusion h

/-! ### C8: search over partially undecodable files -/

theorem foldl_applyChange_filter :
    ∀ (changes : List FieldChange) (c : PyInstance),
    (∀ fc ∈ changes, fc ≠ FieldChange.toDict) →
    (changes.filter recognizedChange).foldl applyChange c =
      changes.foldl applyChange c := by
  intro changes
  induction changes with
  | nil => intro c _; rfl
  | cons fc rest ih =>
      intro c h
      have hrest : ∀ g ∈ rest, g ≠ FieldChange.toDict :=
        fun g hg => h g (List.mem_cons_of_mem fc hg)
      cases fc with
      | unknown nm =>
          rw [List.filter_cons_of_neg (by simp [recognizedChange])]
          rw [List.foldl_cons]
          rw [show applyChange c (FieldChange.unknown nm) = c from rfl]
          exact ih c hrest
      | toDict =>
          exact absurd rfl (h FieldChange.toDict (List.mem_cons_self _ rest))
      | guildId v =>
          rw [List.filter_cons_of_pos (by simp [recognizedChange]),
            List.foldl_cons, List.foldl_cons]
          exact ih _ hrest
      | vaultPath v =>
          rw [List.filter_cons_of_pos (by simp [recognizedChange]),
            List.foldl_cons, List.foldl_cons]
          exact ih _ hrest
      | exportMode v =>
          rw [List.filter_cons_of_pos (by simp [recognizedChange]),
            List.foldl_cons, List.foldl_cons]
          exact ih _ hrest
      | timezone v =>
          rw [List.filter_cons_of_pos (by simp [recognizedChange]),
            List.foldl_cons, List.foldl_cons]
          exact ih _ hrest
      | includeChannels v =>
          rw [List.filter_cons_of_pos (by simp [recognizedChange]),
            List.foldl_cons, List.foldl_cons]
          exact ih _ hrest
      | excludeChannels v =>
          rw [List.filter_cons_of_pos (by simp [recognizedChange]),
            List.foldl_cons, List.foldl_cons]
          exact ih _ hrest
      | adminRoleId v =>
          rw [List.filter_cons_of_pos (by simp [recognizedChange]),
            List.foldl_cons, List.foldl_cons]
          exact ih _ hrest
      | filenameTemplate v =>
          rw [List.filter_cons_of_pos (by simp [recognizedChange]),
            List.foldl_cons, List.foldl_cons]
          exact ih _ hrest
      | customPeriodDays v =>
          rw [List.filter_cons_of_pos (by simp [recognizedChange]),
            List.foldl_cons, List.foldl_cons]
          exact ih _ hrest

theorem cacheGet_cacheSet : ∀ (l : List (Int × PyInstance)) (gid : Int)
    (c : PyInstance), cacheGet (cacheSet l gid c) gid = some c := by
  intro l
  induction l with
  | nil => intro gid c; simp [cacheSet, cacheGet, List.find?]
  | cons e rest ih =>
      intro gid c
      rw [cacheSet]
      by_cases he : (e.1 == gid) = true
      · rw [if_pos he]
        simp [cacheGet, List.find?]
      · rw [if_neg he]
        unfold cacheGet
        simp only [List.find?, he]
        exact ih gid c

theorem shadow_applyChange {c : PyInstance} {fc : FieldChange}
    (hc : c.to_dict_shadowed = false) (h : fc ≠ FieldChange.toDict) :
    (applyChange c fc).to_dict_shadowed = false := by
  cases fc with
  | toDict => exact absurd rfl h
  | unknown nm => exact hc
  | guildId v => exact hc
  | vaultPath v => exact hc
  | exportMode v => exact hc
  | timezone v => exact hc
  | includeChannels v => exact hc
  | excludeChannels v => exact hc
  | adminRoleId v => exact hc
  | filenameTemplate v => exact hc
  | customPeriodDays v => exact hc

theorem shadow_foldl : ∀ (changes : List FieldChange) {c : PyInstance},
    c.to_dict_shadowed = false →
    (∀ fc ∈ changes, fc ≠ FieldChange.toDict) →
    (changes.foldl applyChange c).to_dict_shadowed = false := by
  intro changes
  induction changes with
  | nil => intro c hc _; exact hc
  | cons fc rest ih =>
      intro c hc h
      rw [List.foldl_cons]
      exact ih (shadow_applyChange hc (h fc (List.mem_cons_self fc rest)))
        (fun g hg => h g (List.mem_cons_of_mem fc hg))

theorem all_clean_cacheSet :
    ∀ (cache : List (Int × PyInstance)) (gid : Int) (c : PyInstance),
    cache.all (fun e => !e.2.to_dict_shadowed) = true →
    c.to_dict_shadowed = false →
    (cacheSet cache gid c).all (fun e => !e.2.to_dict_shadowed) = true := by
  intro cache
  induction cache with
  | nil => intro gid c _ hc; simp [cacheSet, hc]
  | cons e rest ih =>
      intro gid c hall hc
      rw [List.all_cons] at hall
      obtain ⟨he, hrest⟩ := Bool.and_eq_true_iff.mp hall
      rw [cacheSet]
      by_cases heq : (e.1 == gid) = true
      · rw [if_pos heq]
        rw [List.all_cons]
        simp [hc, hrest]
      · rw [if_neg heq]
        rw [List.all_cons]
        simp [he, ih gid c hrest hc]

theorem serialize_of_clean {cache : List (Int × PyInstance)}
    (h : cache.all (fun e => !e.2.to_dict_shadowed) = true) :
    tableSerialize cache = .ok (cache.map (fun e => (e.1, e.2.cfg))) := by
  unfold tableSerialize
  rw [if_neg]
  intro hany
  obtain ⟨e, he, hse⟩ := List.any_eq_true.mp hany
  have := List.all_eq_true.mp h e he
  simp at this
  rw [this] at hse
  exact Bool.false_ne_true hse

theorem clean_of_cacheGet {cache : List (Int × PyInstance)} {gid : Int}
    {c : PyInstance}
    (hall : cache.all (fun e => !e.2.to_dict_shadowed) = true)
    (h : cacheGet cache gid = some c) : c.to_dict_shadowed = false := by
  unfold cacheGet at h
  rcases hf : cache.find? (fun e => e.1 == gid) with _ | e
  · rw [hf] at h; exact absurd h (by simp)
  · rw [hf] at h
    have hc : e.2 = c := by simpa using h
    have hmem := List.mem_of_find?_eq_some hf
    have := List.all_eq_true.mp hall e hmem
    rw [hc] at this
    simpa using this

theorem fieldVal_applyChange {c : PyInstance} {fc : FieldChange}
    {name : String} (h : changeName fc ≠ name) :
    fieldVal (applyChange c fc).cfg name = fieldVal c.cfg name := by
  cases fc with
  | unknown nm => rfl
  | toDict => rfl
  | guildId v =>
      unfold fieldVal
      rw [if_neg (fun hn : name = "guild_id" => h hn.symm),
        if_neg (fun hn : name = "guild_id" => h hn.symm)]
      rfl
  | vaultPath v =>
      unfold fieldVal
      rw [if_neg (fun hn : name = "vault_path" => h hn.symm),
        if_neg (fun hn : name = "vault_path" => h hn.symm)]
      rfl
  | exportMode v =>
      unfold fieldVal
      rw [if_neg (fun hn : name = "export_mode" => h hn.symm),
        if_neg (fun hn : name = "export_mode" => h hn.symm)]
      rfl
  | timezone v =>
      unfold fieldVal
      rw [if_neg (fun hn : name = "timezone" => h hn.symm),
        if_neg (fun hn : name = "timezone" => h hn.symm)]
      rfl
  | includeChannels v =>
      unfold fieldVal
      rw [if_neg (fun hn : name = "include_channels" => h hn.symm),
        if_neg (fun hn : name = "include_channels" => h hn.symm)]
      rfl
  | excludeChannels v =>
      unfold fieldVal
      rw [if_neg (fun hn : name = "exclude_channels" => h hn.symm),
        if_neg (fun hn : name = "exclude_channels" => h hn.symm)]
      rfl
  | adminRoleId v =>
      unfold fieldVal
      rw [if_neg (fun hn : name = "admin_role_id" => h hn.symm),
        if_neg (fun hn : name = "admin_role_id" => h hn.symm)]
      rfl
  | filenameTemplate v =>
      unfold fieldVal
      rw [if_neg (fun hn : name = "filename_template" => h hn.symm),
        if_neg (fun hn : name = "filename_template" => h hn.symm)]
      rfl
  | customPeriodDays v =>
      unfold fieldVal
      rw [if_neg (fun hn : name = "custom_period_days" => h hn.symm),
        if_neg (fun hn : name = "custom_period_days" => h hn.symm)]
      rfl

theorem fieldVal_foldl {name : String} :
    ∀ (changes : List FieldChange) (c : PyInstance),
    (∀ fc ∈ changes, changeName fc ≠ name) →
    fieldVal (changes.foldl applyChange c).cfg name = fieldVal c.cfg name := by
  intro changes
  induction changes with
  | nil => intro c _; rfl
  | cons fc rest ih =>
      intro c h
      rw [List.foldl_cons]
      rw [ih _ (fun g hg => h g (List.mem_cons_of_mem fc hg))]
      exact fieldVal_applyChange (h fc (List.mem_cons_self fc rest))

theorem ConfigManager_get_clean {st : ConfigState} {gid : Int}
    (hclean : st.cache.all (fun e => !e.2.to_dict_shadowed) = true) :
    ∃ c0 st1, ConfigManager.get st gid = (.ok c0, st1) ∧
      c0.to_dict_shadowed = false ∧
      st1.cache.all (fun e => !e.2.to_dict_shadowed) = true := by
  unfold ConfigManager.get
  cases hg : cacheGet st.cache gid with
  | some c =>
      exact ⟨c, st, rfl, clean_of_cacheGet hclean hg, hclean⟩
  | none =>
      have hclean2 : (cacheSet st.cache gid
          ⟨{ guild_id := gid }, false⟩).all
          (fun e => !e.2.to_dict_shadowed) = true :=
        all_clean_cacheSet st.cache gid _ hclean rfl
      rw [serialize_of_clean hclean2]
      exact ⟨_, _, rfl, rfl, hclean2⟩

/-- C9, amended: for change sets that do not assign to a non-field class
attribute such as `to_dict`, and a cache with no such shadowed instance,
`update(guildId, fieldChanges)` applies exactly the changes whose names
are recognized `GuildConfig` fields (dropping the unrecognized ones
changes nothing), silently ignores names that are not attributes,
persists the full table (the disk copy is the serialization of the
cache), returns the record stored in the table, and every field not
named by any change keeps its previous value.  (A change assigning
`to_dict` falls outside this: see the counterexample.) -/
theorem ConfigManager_update_spec (st : ConfigState) (gid : Int)
    (changes : List FieldChange)
    (hclean : st.cache.all (fun e => !e.2.to_dict_shadowed) = true)
    (hnoshadow : ∀ fc ∈ changes, fc ≠ FieldChange.toDict) :
    ∃ c0 st1 c1 st2,
      ConfigManager.get st gid = (.ok c0, st1) ∧
      ConfigManager.update st gid changes = (.ok c1, st2) ∧
      ConfigManager.update st gid (changes.filter recognizedChange) =
        (.ok c1, st2) ∧
      st2.disk = st2.cache.map (fun e => (e.1, e.2.cfg)) ∧
      cacheGet st2.cache gid = some c1 ∧
      (∀ name : String, (∀ fc ∈ changes, changeName fc ≠ name) →
        fieldVal c1.cfg name = fieldVal c0.cfg name) := by
  obtain ⟨c0, st1, hget, hc0, hclean1⟩ := ConfigManager_get_clean hclean
  have hclean2 : (cacheSet st1.cache gid
      (changes.foldl applyChange c0)).all
      (fun e => !e.2.to_dict_shadowed) = true :=
    all_clean_cacheSet st1.cache gid _ hclean1
      (shadow_foldl changes hc0 hnoshadow)
  refine ⟨c0, st1, changes.foldl applyChange c0,
    ⟨cacheSet st1.cache gid (changes.foldl applyChange c0),
     (cacheSet st1.cache gid (changes.foldl applyChange c0)).map
       (fun e => (e.1, e.2.cfg))⟩, hget, ?_, ?_, rfl, ?_, ?_⟩
  · unfold ConfigManager.update
    rw [hget]
    dsimp only
    rw [serialize_of_clean hclean2]
  · unfold ConfigManager.update
    rw [hget]
    dsimp only
    rw [foldl_applyChange_filter changes c0 hnoshadow,
      serialize_of_clean hclean2]
  · exact cacheGet_cacheSet st1.cache gid _
  · intro name h
    exact fieldVal_foldl changes c0 h

/-- Witness for `ConfigManager_update_spec`: updating `export_mode` (with
an unknown, non-attribute key alongside) on a fresh state; `vault_path`
keeps its default by the frame conjunct. -/
theorem ConfigManager_update_spec_witness :
    (∃ c0 st1 c1 st2,
      ConfigManager.get ⟨[], []⟩ 1 = (.ok c0, st1) ∧
      ConfigManager.update ⟨[], []⟩ 1
        [FieldChange.exportMode "daily", FieldChange.unknown "frequency"] =
        (.ok c1, st2) ∧
      ConfigManager.update ⟨[], []⟩ 1
        ([FieldChange.exportMode "daily",
          FieldChange.unknown "frequency"].filter recognizedChange) =
        (.ok c1, st2) ∧
      st2.disk = st2.cache.map (fun e => (e.1, e.2.cfg)) ∧
      cacheGet st2.cache 1 = some c1 ∧
      (∀ name : String,
        (∀ fc ∈ [FieldChange.exportMode "daily",
          FieldChange.unknown "frequency"], changeName fc ≠ name) →
        fieldVal c1.cfg name = fieldVal c0.cfg name)) := by
  refine ConfigManager_update_spec ⟨[], []⟩ 1
    [FieldChange.exportMode "daily", FieldChange.unknown "frequency"]
    rfl ?_
  intro fc hfc
  rcases List.mem_cons.mp hfc with rfl | hfc
  · decide
  · rcases List.mem_singleton.mp hfc with rfl
    decide

/-- C9, counterexample to the claim as stated: the field name `to_dict`
is not a recognized `GuildConfiguration` field, yet it is not silently
ignored — `hasattr(config, "to_dict")` is true, so `setattr` shadows the
method with the (non-callable) value, and the `config.to_dict()` call
inside `_save` then raises `TypeError`: the update returns no record
instead of the updated one, and the shadowing assignment is visible on
the cached instance. -/
theorem ConfigManager_update_toDict_raises :
    (ConfigManager.update ⟨[], []⟩ 1 [FieldChange.toDict]).1 =
      Except.error PyError.typeError ∧
    (cacheGet (ConfigManager.update ⟨[], []⟩ 1
        [FieldChange.toDict]).2.cache 1).map
      (fun c => c.to_dict_shadowed) = some true :=
  ⟨rfl, rfl⟩

end D2O
